import Mathlib

/-!
# Versioned record store (timetravel): a shallow embedding

The development embeds `service/versioned_record.go` (the versioned record
service) over the two tables declared in `database/database.go`.

Modelling decisions, each as the code has it:

* A Go `map[string]string` is an association list with distinct keys
  (`AList`); the order of the list stands for whichever iteration order the
  runtime picks and is not observable.  A nil map is `none`.
* A Go `string` is a `GoString`: any sequence of bytes, valid UTF-8 or not.
* `json.Marshal` on a `map[string]string` is modelled by `jsonMarshal`: a nil
  map gives the text `null`; any other map gives an object whose members are
  the entries sorted by key, every key and value with each byte that does not
  start a valid UTF-8 encoding replaced by U+FFFD (`toValidUTF8`).  The text
  is held as the strings its members decode to, so the escapes of the encoder
  are not visible.  `json.Unmarshal` (`jsonUnmarshal`) leaves the map nil on
  `null` and otherwise sets the members in text order, a later one replacing
  an earlier one with the same key.
* Go `int` and SQLite `INTEGER` are `Int`; `time.Now()` is an explicit
  argument of every writing operation.
* A database is the list of rows of `records` and of `record_versions`, in
  insertion order.  The schema constraints (primary key, `CHECK(id > 0)`,
  `UNIQUE(record_id, version)`, the foreign key) make an `INSERT` fail.
* A transaction that fails is rolled back: the operation returns the state it
  started from.  Failures of the environment (I/O, cancelled context) are
  outside the model.
* A Go runtime panic (assignment to an entry of a nil map) is the outcome
  `Result.panic`.
* Calls run one at a time, except in `interleavedUpdates`, where two calls of
  `UpdateRecord` are split at `BeginTx` and scheduled explicitly; the two
  transactions themselves do not overlap.
-/

namespace TimeTravel

/-- Go type `string`: a sequence of bytes. -/
abbrev GoString := List UInt8

/-- The Go string holding the UTF-8 encoding of a text. -/
def goString (s : String) : GoString := s.data.flatMap String.utf8EncodeChar

/-- Bytes `0x80 .. 0xBF`, the continuation bytes of UTF-8. -/
def isContinuation (b : UInt8) : Bool := 0x80 ≤ b && b ≤ 0xBF

/-- Size found by `utf8.DecodeRuneInString` for a string that starts with the
non-ASCII byte `b0` followed by `rest`: 2, 3 or 4 for a valid encoding, and `0`
where Go returns `RuneError` with size 1. -/
def runeLen (b0 : UInt8) (rest : List UInt8) : Nat :=
  if 0xC2 ≤ b0 ∧ b0 ≤ 0xDF then
    match rest with
    | b1 :: _ => if isContinuation b1 then 2 else 0
    | _ => 0
  else if 0xE0 ≤ b0 ∧ b0 ≤ 0xEF then
    match rest with
    | b1 :: b2 :: _ =>
      if (if b0 = 0xE0 then 0xA0 else 0x80) ≤ b1 ∧ b1 ≤ (if b0 = 0xED then 0x9F else 0xBF)
          ∧ isContinuation b2 then 3
      else 0
    | _ => 0
  else if 0xF0 ≤ b0 ∧ b0 ≤ 0xF4 then
    match rest with
    | b1 :: b2 :: b3 :: _ =>
      if (if b0 = 0xF0 then 0x90 else 0x80) ≤ b1 ∧ b1 ≤ (if b0 = 0xF4 then 0x8F else 0xBF)
          ∧ isContinuation b2 ∧ isContinuation b3 then 4
      else 0
    | _ => 0
  else 0

/-- The string loop of the JSON encoder followed by decoding: bytes of a valid
encoding are kept (the first argument counts the bytes of the current encoding
still to copy), and a byte that starts no valid encoding becomes U+FFFD, the
bytes `EF BF BD`. -/
def coerceFrom : Nat → List UInt8 → List UInt8
  | _, [] => []
  | n + 1, b :: rest => b :: coerceFrom n rest
  | 0, b :: rest =>
    if b < 0x80 then b :: coerceFrom 0 rest
    else
      match runeLen b rest with
      | 0 => 0xEF :: 0xBF :: 0xBD :: coerceFrom 0 rest
      | n + 1 => b :: coerceFrom n rest

/-- What a Go string reads back as after `json.Marshal` and `json.Unmarshal`:
itself when it is valid UTF-8, else with every invalid byte replaced by
U+FFFD. -/
def toValidUTF8 (s : GoString) : GoString := coerceFrom 0 s

/-- Go type `map[string]string` when it is not nil. -/
abbrev FieldMap := AList (fun _ : GoString => GoString)

/-- A key with its value. -/
abbrev Member := Sigma (fun _ : GoString => GoString)

/-- Go type `map[string]string`; `none` is the nil map. -/
abbrev GoMap := Option FieldMap

/-- Go type `map[string]*string` as it is ranged over: each entry is a key and
either a nil pointer (`none`) or a pointer to a string. -/
abbrev Updates := AList (fun _ : GoString => Option GoString)

/-- Go type `time.Time`, as an abstract clock reading. -/
abbrev Time := Nat

/-- Struct `entity.Record`. -/
structure Record where
  ID : Int
  Data : GoMap
  deriving DecidableEq

/-- Struct `entity.VersionInfo`. -/
structure VersionInfo where
  Version : Int
  CreatedAt : Time
  deriving DecidableEq

/-- The sentinel errors of package `service` and the wrapped errors built with
`fmt.Errorf("...: %w", err)`. -/
inductive Err where
  | ErrRecordDoesNotExist
  | ErrRecordIDInvalid
  | ErrRecordAlreadyExists
  | ErrVersionDoesNotExist
  | ErrInvalidVersion
  | wrapped (msg : String)
  deriving DecidableEq

/-- Outcome of a service call: a value, a returned error, or a runtime panic. -/
inductive Result (α : Type) where
  | ok (a : α)
  | error (e : Err)
  | panic
  deriving DecidableEq

/-- Text stored in a `data` column, the output of `json.Marshal` on a
`map[string]string`: `null`, or an object given by its members in text order,
each as the key and value it decodes to. -/
inductive JSONText where
  | null
  | object (members : List Member)
  deriving DecidableEq

/-- Function `json.Marshal` on a `map[string]string`; it cannot fail.  The
members are sorted by key (bytewise, as `strings.Compare`), then each key and
value is written with its invalid bytes replaced. -/
def jsonMarshal : GoMap → JSONText
  | none => JSONText.null
  | some m =>
    JSONText.object
      ((m.entries.insertionSort (fun a b => a.1 ≤ b.1)).map
        (fun e => ⟨toValidUTF8 e.1, toValidUTF8 e.2⟩))

/-- Function `json.Unmarshal` into a fresh `var data map[string]string`: `null`
leaves it nil; an object allocates a map and sets its members in text order. -/
def jsonUnmarshal : JSONText → GoMap
  | JSONText.null => none
  | JSONText.object members =>
    some (members.foldl (fun (acc : FieldMap) e => acc.insert e.1 e.2) ∅)

/-- What a mapping reads back as once stored: `json.Marshal` then
`json.Unmarshal`. -/
def jsonRoundTrip (m : GoMap) : GoMap := jsonUnmarshal (jsonMarshal m)

/-- Row of table `records`. -/
structure RecordRow where
  id : Int
  data : JSONText
  created_at : Time
  updated_at : Time
  deriving DecidableEq

/-- Row of table `record_versions`. -/
structure VersionRow where
  id : Nat
  record_id : Int
  version : Int
  data : JSONText
  created_at : Time
  deriving DecidableEq

/-- Database state: both tables, rows in insertion order. -/
structure DB where
  records : List RecordRow
  record_versions : List VersionRow
  deriving DecidableEq

/-- Database right after `initSchema`: both tables empty. -/
def emptyDB : DB := ⟨[], []⟩

/-! ## The SQL statements -/

/-- Query `SELECT data FROM records WHERE id = ?` scanned with `QueryRow`;
`none` is `sql.ErrNoRows`. -/
def selectRecordData (db : DB) (id : Int) : Option JSONText :=
  (db.records.find? (fun r => r.id = id)).map (fun r => r.data)

/-- Query `SELECT EXISTS(SELECT 1 FROM records WHERE id = ?)`. -/
def recordExists (db : DB) (id : Int) : Bool :=
  db.records.any (fun r => r.id = id)

/-- Query `SELECT data FROM record_versions WHERE record_id = ? AND version = ?`
scanned with `QueryRow`; `none` is `sql.ErrNoRows`. -/
def selectVersionData (db : DB) (id version : Int) : Option JSONText :=
  (db.record_versions.find? (fun r => r.record_id = id ∧ r.version = version)).map
    (fun r => r.data)

/-- Rows of `record_versions` with the given `record_id`, in insertion order. -/
def versionRows (db : DB) (id : Int) : List VersionRow :=
  db.record_versions.filter (fun r => r.record_id = id)

/-- Columns `version, created_at` of a version row. -/
def VersionRow.info (r : VersionRow) : VersionInfo := ⟨r.version, r.created_at⟩

/-- Query `SELECT version, created_at FROM record_versions WHERE record_id = ?
ORDER BY version DESC`. -/
def selectVersionsDesc (db : DB) (id : Int) : List VersionInfo :=
  ((versionRows db id).map VersionRow.info).insertionSort
    (fun a b => a.Version ≥ b.Version)

/-- SQL aggregate `MAX`: `none` (NULL) on no rows. -/
def sqlMax : List Int → Option Int
  | [] => none
  | x :: xs => some (xs.foldl max x)

/-- Query `SELECT COALESCE(MAX(version), 0) + 1 FROM record_versions WHERE
record_id = ?`. -/
def selectNextVersion (db : DB) (id : Int) : Int :=
  ((sqlMax ((versionRows db id).map (fun r => r.version))).getD 0) + 1

/-- Statement `INSERT INTO records (id, data, created_at, updated_at) VALUES
(?, ?, ?, ?)`; `none` when the primary key or `CHECK(id > 0)` rejects it. -/
def insertRecord (db : DB) (id : Int) (data : JSONText) (created updated : Time) :
    Option DB :=
  if id > 0 ∧ recordExists db id = false then
    some { db with records := db.records ++ [⟨id, data, created, updated⟩] }
  else none

/-- Next value of the `AUTOINCREMENT` primary key of `record_versions`. -/
def nextRowid (db : DB) : Nat :=
  (db.record_versions.map (fun r => r.id)).foldl max 0 + 1

/-- Statement `INSERT INTO record_versions (record_id, version, data,
created_at) VALUES (?, ?, ?, ?)`; `none` when `UNIQUE(record_id, version)` or
the foreign key to `records(id)` rejects it. -/
def insertVersion (db : DB) (id version : Int) (data : JSONText) (created : Time) :
    Option DB :=
  if recordExists db id = true ∧ selectVersionData db id version = none then
    some { db with
      record_versions := db.record_versions ++ [⟨nextRowid db, id, version, data, created⟩] }
  else none

/-- Statement `UPDATE records SET data = ?, updated_at = ? WHERE id = ?`. -/
def updateRecordRow (db : DB) (id : Int) (data : JSONText) (updated : Time) : DB :=
  { db with
    records := db.records.map
      (fun r => if r.id = id then { r with data := data, updated_at := updated } else r) }

/-! ## The versioned service -/

/-- Method `SQLiteVersionedRecordService.GetRecord`. -/
def GetRecord (db : DB) (id : Int) : Result Record :=
  if id ≤ 0 then Result.error Err.ErrRecordIDInvalid
  else
    match selectRecordData db id with
    | none => Result.error Err.ErrRecordDoesNotExist
    | some dataJSON => Result.ok ⟨id, jsonUnmarshal dataJSON⟩

/-- Method `SQLiteVersionedRecordService.GetRecordVersion`. -/
def GetRecordVersion (db : DB) (id version : Int) : Result Record :=
  if id ≤ 0 then Result.error Err.ErrRecordIDInvalid
  else if version ≤ 0 then Result.error Err.ErrInvalidVersion
  else
    match selectVersionData db id version with
    | none => Result.error Err.ErrVersionDoesNotExist
    | some dataJSON => Result.ok ⟨id, jsonUnmarshal dataJSON⟩

/-- Method `SQLiteVersionedRecordService.ListVersions`. -/
def ListVersions (db : DB) (id : Int) : Result (List VersionInfo) :=
  if id ≤ 0 then Result.error Err.ErrRecordIDInvalid
  else
    let versions := selectVersionsDesc db id
    if versions.length = 0 then
      if recordExists db id = false then Result.error Err.ErrRecordDoesNotExist
      else Result.ok versions
    else Result.ok versions

/-- Method `SQLiteVersionedRecordService.CreateRecord`: the outcome and the
database afterwards. -/
def CreateRecord (db : DB) (record : Record) (now : Time) : Result Unit × DB :=
  let id := record.ID
  if id ≤ 0 then (Result.error Err.ErrRecordIDInvalid, db)
  else if recordExists db id = true then (Result.error Err.ErrRecordAlreadyExists, db)
  else
    let dataJSON := jsonMarshal record.Data
    match insertRecord db id dataJSON now now with
    | none => (Result.error (Err.wrapped "failed to insert record"), db)
    | some db1 =>
      match insertVersion db1 id 1 dataJSON now with
      | none => (Result.error (Err.wrapped "failed to insert record version"), db)
      | some db2 => (Result.ok (), db2)

/-- Go builtin `delete(m, key)`: a no-op on a nil map. -/
def goDelete (m : GoMap) (key : GoString) : GoMap :=
  m.map (fun fields => fields.erase key)

/-- Go assignment `m[key] = value`; `none` is the panic on a nil map. -/
def goAssign (m : GoMap) (key value : GoString) : Option GoMap :=
  match m with
  | none => none
  | some fields => some (some (fields.insert key value))

/-- The loop `for key, value := range updates` of `UpdateRecord`, over the
entries in the order the runtime visits them; `none` is a panic. -/
def applyUpdates (data : GoMap) : List (Sigma (fun _ : GoString => Option GoString)) → Option GoMap
  | [] => some data
  | ⟨key, none⟩ :: rest => applyUpdates (goDelete data key) rest
  | ⟨key, some value⟩ :: rest =>
    match goAssign data key value with
    | none => none
    | some data1 => applyUpdates data1 rest

/-- Method `SQLiteVersionedRecordService.UpdateRecord`: the outcome and the
database afterwards. -/
def UpdateRecord (db : DB) (id : Int) (updates : Updates) (now : Time) :
    Result Record × DB :=
  if id ≤ 0 then (Result.error Err.ErrRecordIDInvalid, db)
  else
    match GetRecord db id with
    | Result.error e => (Result.error e, db)
    | Result.panic => (Result.panic, db)
    | Result.ok record =>
      match applyUpdates record.Data updates.entries with
      | none => (Result.panic, db)
      | some data =>
        let dataJSON := jsonMarshal data
        let nextVersion := selectNextVersion db id
        let db1 := updateRecordRow db id dataJSON now
        match insertVersion db1 id nextVersion dataJSON now with
        | none => (Result.error (Err.wrapped "failed to insert record version"), db)
        | some db2 => (Result.ok ⟨record.ID, data⟩, db2)

/-- The loop of `CreateOrUpdateRecord` that builds `updates` from
`record.Data`: every entry becomes a pointer to a copy of its value. -/
def setMutations : GoMap → Updates
  | none => ∅
  | some fields =>
    fields.entries.foldr (fun e acc => acc.insert e.1 (some e.2)) ∅

/-- Method `SQLiteVersionedRecordService.CreateOrUpdateRecord`: the outcome and
the database afterwards. -/
def CreateOrUpdateRecord (db : DB) (record : Record) (now : Time) : Result Record × DB :=
  let id := record.ID
  if id ≤ 0 then (Result.error Err.ErrRecordIDInvalid, db)
  else
    match GetRecord db id with
    | Result.panic => (Result.panic, db)
    | Result.error e =>
      if e ≠ Err.ErrRecordDoesNotExist then (Result.error e, db)
      else
        match CreateRecord db record now with
        | (Result.ok _, db1) => (Result.ok record, db1)
        | (Result.error e1, db1) => (Result.error e1, db1)
        | (Result.panic, db1) => (Result.panic, db1)
    | Result.ok _ => UpdateRecord db id (setMutations record.Data) now

/-! ## Runs of the service -/

/-- A writing call of the versioned service with its arguments. -/
inductive Op where
  | create (record : Record) (now : Time)
  | update (id : Int) (updates : Updates) (now : Time)
  | createOrUpdate (record : Record) (now : Time)

/-- Database after one call, whatever its outcome. -/
def Op.apply (db : DB) : Op → DB
  | Op.create record now => (CreateRecord db record now).2
  | Op.update id updates now => (UpdateRecord db id updates now).2
  | Op.createOrUpdate record now => (CreateOrUpdateRecord db record now).2

/-- Database after a sequence of calls. -/
def runOps (db : DB) (ops : List Op) : DB := ops.foldl Op.apply db

/-- States reachable from the empty store by calls of the versioned service. -/
inductive Reachable : DB → Prop where
  | empty : Reachable emptyDB
  | step {db : DB} (h : Reachable db) (op : Op) : Reachable (op.apply db)

/-- Go index expression `m[key]` with the comma-ok form: `none` when the key
is absent (always so on a nil map). -/
def goLookup (m : GoMap) (key : GoString) : Option GoString :=
  m.bind (fun fields => fields.lookup key)

/-- Two Go maps that are equal as Go values: both nil or both not nil, and the
same value, or none, under every key. -/
def sameMap (m1 m2 : GoMap) : Prop :=
  (m1 = none ↔ m2 = none) ∧ ∀ k, goLookup m1 k = goLookup m2 k

/-- Every key and every value of the mapping is valid UTF-8, that is, reads
back as itself; a nil mapping has none. -/
def ValidUTF8Map (m : GoMap) : Prop :=
  ∀ fields, m = some fields →
    ∀ e ∈ fields.entries, toValidUTF8 e.1 = e.1 ∧ toValidUTF8 e.2 = e.2

/-- Value of a field in the record a call returned; `none` when the call
returned no record or the record lacks the field. -/
def recordField (r : Result Record) (key : GoString) : Option GoString :=
  match r with
  | Result.ok record => goLookup record.Data key
  | _ => none

/-- Foreign key of `record_versions`: every version row belongs to a row of
`records`. -/
def ForeignKeyOK (db : DB) : Prop :=
  ∀ r ∈ db.record_versions, recordExists db r.record_id = true

/-- Database after a committed `CreateRecord` transaction that stored `data`
for `id`. -/
def createdDB (db : DB) (id : Int) (data : JSONText) (now : Time) : DB :=
  ⟨db.records ++ [⟨id, data, now, now⟩],
   db.record_versions ++ [⟨nextRowid db, id, 1, data, now⟩]⟩

/-- Database after a committed `UpdateRecord` transaction that stored `data`
for `id`. -/
def updatedDB (db : DB) (id : Int) (data : JSONText) (now : Time) : DB :=
  ⟨(updateRecordRow db id data now).records,
   db.record_versions ++ [⟨nextRowid db, id, selectNextVersion db id, data, now⟩]⟩

/-- What one call can do to the database: nothing, the committed transaction
of `CreateRecord`, or the committed transaction of `UpdateRecord`. -/
inductive Effect (db : DB) : DB → Prop where
  | unchanged : Effect db db
  | created (id : Int) (data : JSONText) (now : Time) (hid : id > 0)
      (hex : recordExists db id = false) : Effect db (createdDB db id data now)
  | updated (id : Int) (data : JSONText) (now : Time)
      (hex : recordExists db id = true) : Effect db (updatedDB db id data now)

/-- The version numbers 1, 2, ..., n as stored in column `version`. -/
def versionNumbers (n : Nat) : List Int := (List.range' 1 n).map Int.ofNat

/-- Consistency of the two tables: an identifier without a current-state row
has no version rows; one with a current-state row has version rows numbered
1, 2, ..., n in insertion order for some n ≥ 1, the last of which stores the
text of the current-state row. -/
def Consistent (db : DB) : Prop :=
  ∀ id : Int,
    (recordExists db id = false → versionRows db id = []) ∧
    (∀ d, selectRecordData db id = some d →
      ∃ n : Nat, (versionRows db id).map (fun r => r.version) = versionNumbers (n + 1) ∧
        ((versionRows db id).getLast?).map (fun r => r.data) = some d)

/-! ## The two parts of `UpdateRecord` around `BeginTx` -/

/-- The part of `UpdateRecord` that runs before `BeginTx` (lines 204-227): the
identifier check, `s.GetRecord` on the plain connection, the loop applying the
mutations, and `json.Marshal`.  It yields the merged record and its text. -/
def UpdateRecord_read (db : DB) (id : Int) (updates : Updates) :
    Result (Record × JSONText) :=
  if id ≤ 0 then Result.error Err.ErrRecordIDInvalid
  else
    match GetRecord db id with
    | Result.error e => Result.error e
    | Result.panic => Result.panic
    | Result.ok record =>
      match applyUpdates record.Data updates.entries with
      | none => Result.panic
      | some data => Result.ok (⟨record.ID, data⟩, jsonMarshal data)

/-- The transaction of `UpdateRecord` (lines 229-270): the next version number,
the `UPDATE` of the current-state row, the `INSERT` of the version row, and the
commit; on a failure the rollback leaves the database as it was. -/
def UpdateRecord_tx (db : DB) (id : Int) (record : Record) (dataJSON : JSONText)
    (now : Time) : Result Record × DB :=
  let nextVersion := selectNextVersion db id
  let db1 := updateRecordRow db id dataJSON now
  match insertVersion db1 id nextVersion dataJSON now with
  | none => (Result.error (Err.wrapped "failed to insert record version"), db)
  | some db2 => (Result.ok record, db2)

/-- The rest of a call of `UpdateRecord` once its first part has run: the
transaction on the database as it is by then, or the early return. -/
def UpdateRecord_finish (db : DB) (id : Int) (now : Time) :
    Result (Record × JSONText) → Result Record × DB
  | Result.ok (record, dataJSON) => UpdateRecord_tx db id record dataJSON now
  | Result.error e => (Result.error e, db)
  | Result.panic => (Result.panic, db)

/-- Two calls of `UpdateRecord` on one identifier in the schedule where both
run their first part on the database as they find it, then the first call runs
its transaction, then the second call runs its transaction.  The outcome of
each call and the database afterwards. -/
def interleavedUpdates (db : DB) (id : Int) (updates1 updates2 : Updates)
    (now1 now2 : Time) : (Result Record × Result Record) × DB :=
  let read1 := UpdateRecord_read db id updates1
  let read2 := UpdateRecord_read db id updates2
  let done1 := UpdateRecord_finish db id now1 read1
  let done2 := UpdateRecord_finish done1.2 id now2 read2
  ((done1.1, done2.1), done2.2)

/-- The same two calls one after the other: the second starts when the first
has returned. -/
def serialUpdates (db : DB) (id : Int) (updates1 updates2 : Updates)
    (now1 now2 : Time) : (Result Record × Result Record) × DB :=
  let done1 := UpdateRecord db id updates1 now1
  let done2 := UpdateRecord done1.2 id updates2 now2
  ((done1.1, done2.1), done2.2)

/-- Current value of a field of a record, as `GetRecord` gives it; `none` when
the record cannot be read or lacks the field. -/
def currentField (db : DB) (id : Int) (key : GoString) : Option GoString :=
  match GetRecord db id with
  | Result.ok record => goLookup record.Data key
  | _ => none

/-! ## Sample run (scenarios A and B of the specification) -/

/-- Mapping with the single field `name = alice`. -/
def aliceFields : FieldMap := (∅ : FieldMap).insert (goString "name") (goString "alice")

/-- Mutations setting `name = alicia` and `age = 30`. -/
def aliciaUpdates : Updates :=
  ((∅ : Updates).insert (goString "age") (some (goString "30"))).insert (goString "name") (some (goString "alicia"))

/-- Mapping with the fields `name = alicia` and `age = 30`. -/
def aliciaFields : FieldMap :=
  ((∅ : FieldMap).insert (goString "name") (goString "alicia")).insert (goString "age") (goString "30")

/-- Database after `CreateRecord(1, aliceFields)` at time 10 on the empty store. -/
def sampleDB1 : DB := (Op.create ⟨1, some aliceFields⟩ 10).apply emptyDB

/-- Database after a further `UpdateRecord(1, aliciaUpdates)` at time 20. -/
def sampleDB2 : DB := (Op.update 1 aliciaUpdates 20).apply sampleDB1

/-- Mapping with the single field `k` whose value is the one byte `FF`, which
is not valid UTF-8. -/
def badFields : FieldMap := (∅ : FieldMap).insert (goString "k") [0xFF]

/-- Mutation setting the field `j` to the one byte `FE`, which is not valid
UTF-8. -/
def badUpdates : Updates := (∅ : Updates).insert (goString "j") (some [0xFE])

/-- Mutations setting `age = 30` only. -/
def ageUpdates : Updates := (∅ : Updates).insert (goString "age") (some (goString "30"))

/-- Database after `CreateRecord` of record 1 with a nil `Data` at time 10 on
the empty store. -/
def nilRecordDB : DB := (Op.create ⟨1, none⟩ 10).apply emptyDB

/-- Mutations setting `city = paris` only. -/
def cityUpdates : Updates := (∅ : Updates).insert (goString "city") (some (goString "paris"))

/-! ## Lemmas on the SQL statements -/

theorem recordExists_eq_false_iff (db : DB) (id : Int) :
    recordExists db id = false ↔ selectRecordData db id = none := by
  simp [recordExists, selectRecordData, List.find?_eq_none]

theorem recordExists_eq_true_iff (db : DB) (id : Int) :
    recordExists db id = true ↔ ∃ d, selectRecordData db id = some d := by
  rw [← Option.isSome_iff_exists, ← Option.ne_none_iff_isSome, Ne,
    ← recordExists_eq_false_iff]
  simp

theorem versionRows_eq_nil_of_not_exists {db : DB} (hfk : ForeignKeyOK db) {id : Int}
    (h : recordExists db id = false) : versionRows db id = [] := by
  simp only [versionRows, List.filter_eq_nil_iff]
  intro r hr hid
  have h1 := hfk r hr
  simp only [decide_eq_true_eq] at hid
  rw [hid, h] at h1
  exact Bool.false_ne_true h1

theorem selectVersionData_eq_none_of_versionRows_nil {db : DB} {id : Int}
    (h : versionRows db id = []) (version : Int) : selectVersionData db id version = none := by
  simp only [versionRows, List.filter_eq_nil_iff] at h
  simp only [selectVersionData, Option.map_eq_none', List.find?_eq_none]
  intro r hr hc
  apply h r hr
  simp only [decide_eq_true_eq] at hc ⊢
  exact hc.1

theorem insertRecord_eq_some {db : DB} {id : Int} (hid : id > 0)
    (hex : recordExists db id = false) (data : JSONText) (created updated : Time) :
    insertRecord db id data created updated
      = some ⟨db.records ++ [⟨id, data, created, updated⟩], db.record_versions⟩ := by
  simp [insertRecord, hid, hex]

theorem insertVersion_eq_some {db : DB} {id version : Int}
    (hex : recordExists db id = true) (hv : selectVersionData db id version = none)
    (data : JSONText) (created : Time) :
    insertVersion db id version data created
      = some ⟨db.records,
          db.record_versions ++ [⟨nextRowid db, id, version, data, created⟩]⟩ := by
  simp [insertVersion, hex, hv]

theorem CreateRecord_fresh {db : DB} {id : Int} (hid : id > 0)
    (hex : recordExists db id = false) (hv : versionRows db id = [])
    (fields : GoMap) (now : Time) :
    CreateRecord db ⟨id, fields⟩ now
      = (Result.ok (), createdDB db id (jsonMarshal fields) now) := by
  have hnot : ¬ id ≤ 0 := by omega
  have hv1 : selectVersionData db id 1 = none :=
    selectVersionData_eq_none_of_versionRows_nil hv 1
  have hex2 : recordExists
      ⟨db.records ++ [⟨id, jsonMarshal fields, now, now⟩], db.record_versions⟩ id = true := by
    simp [recordExists]
  have hv2 : selectVersionData
      ⟨db.records ++ [⟨id, jsonMarshal fields, now, now⟩], db.record_versions⟩ id 1 = none := hv1
  simp only [CreateRecord, hnot, if_false, hex, Bool.false_eq_true,
    insertRecord_eq_some hid hex, insertVersion_eq_some hex2 hv2, createdDB, nextRowid]

theorem selectRecordData_createdDB_self {db : DB} {id : Int}
    (hex : recordExists db id = false) (data : JSONText) (now : Time) :
    selectRecordData (createdDB db id data now) id = some data := by
  have h := (recordExists_eq_false_iff db id).1 hex
  simp only [selectRecordData, Option.map_eq_none'] at h
  simp [selectRecordData, createdDB, List.find?_append, h]

theorem versionRows_createdDB (db : DB) (id : Int) (data : JSONText) (now : Time)
    (id1 : Int) :
    versionRows (createdDB db id data now) id1
      = versionRows db id1
          ++ (if id = id1 then [⟨nextRowid db, id, 1, data, now⟩] else []) := by
  by_cases h : id = id1 <;> simp [versionRows, createdDB, List.filter_append, h]

theorem versionRows_updatedDB (db : DB) (id : Int) (data : JSONText) (now : Time)
    (id1 : Int) :
    versionRows (updatedDB db id data now) id1
      = versionRows db id1
          ++ (if id = id1 then [⟨nextRowid db, id, selectNextVersion db id, data, now⟩]
              else []) := by
  by_cases h : id = id1 <;> simp [versionRows, updatedDB, List.filter_append, h]

theorem selectVersionData_createdDB_self {db : DB} {id : Int}
    (hv : versionRows db id = []) (data : JSONText) (now : Time) :
    selectVersionData (createdDB db id data now) id 1 = some data := by
  have h := selectVersionData_eq_none_of_versionRows_nil hv 1
  simp only [selectVersionData, Option.map_eq_none'] at h
  simp only [selectVersionData, createdDB, List.find?_append, h, Option.none_or]
  simp

theorem dlookup_append_or (l1 l2 : List Member) (k : GoString) :
    List.dlookup k (l1 ++ l2) = (List.dlookup k l1).or (List.dlookup k l2) := by
  induction l1 with
  | nil => simp
  | cons e rest ih =>
    obtain ⟨key, value⟩ := e
    by_cases h : k = key
    · subst h
      simp
    · rw [List.cons_append, List.dlookup_cons_ne _ _ h, List.dlookup_cons_ne _ _ h, ih]

theorem lookup_foldl_insert (l : List Member) (acc : FieldMap) (k : GoString) :
    (l.foldl (fun (acc : FieldMap) e => acc.insert e.1 e.2) acc).lookup k
      = (List.dlookup k l.reverse).or (acc.lookup k) := by
  induction l generalizing acc with
  | nil => simp
  | cons e rest ih =>
    obtain ⟨key, value⟩ := e
    rw [List.foldl_cons, ih, List.reverse_cons, dlookup_append_or, Option.or_assoc]
    congr 1
    by_cases h : k = key
    · subst h
      simp
    · rw [AList.lookup_insert_ne h, List.dlookup_cons_ne _ _ h]
      simp

theorem jsonRoundTrip_none : jsonRoundTrip none = none := rfl

theorem jsonRoundTrip_eq_none_iff (m : GoMap) : jsonRoundTrip m = none ↔ m = none := by
  cases m <;> simp [jsonRoundTrip, jsonMarshal, jsonUnmarshal]

theorem jsonRoundTrip_same_of_valid (m : GoMap) (hvalid : ValidUTF8Map m) :
    sameMap (jsonRoundTrip m) m := by
  refine ⟨jsonRoundTrip_eq_none_iff m, ?_⟩
  intro k
  cases m with
  | none => rfl
  | some fields =>
    have hperm := List.perm_insertionSort (fun a b : Member => a.1 ≤ b.1) fields.entries
    have hmap : (fields.entries.insertionSort (fun a b : Member => a.1 ≤ b.1)).map
        (fun e : Member => (⟨toValidUTF8 e.1, toValidUTF8 e.2⟩ : Member))
        = fields.entries.insertionSort (fun a b : Member => a.1 ≤ b.1) := by
      conv_rhs => rw [← List.map_id (fields.entries.insertionSort _)]
      apply List.map_congr_left
      intro e he
      obtain ⟨h1, h2⟩ := hvalid fields rfl e (hperm.mem_iff.1 he)
      obtain ⟨key, value⟩ := e
      simp only at h1 h2
      simp [h1, h2]
    have hnd : (fields.entries.insertionSort (fun a b : Member => a.1 ≤ b.1)).NodupKeys :=
      (List.perm_nodupKeys hperm).2 fields.nodupKeys
    have hnd2 : (fields.entries.insertionSort
        (fun a b : Member => a.1 ≤ b.1)).reverse.NodupKeys :=
      (List.perm_nodupKeys (List.reverse_perm _)).2 hnd
    simp only [jsonRoundTrip, jsonMarshal, jsonUnmarshal, goLookup, Option.some_bind, hmap,
      lookup_foldl_insert, AList.lookup_empty, Option.or_none]
    rw [List.perm_dlookup k hnd2 fields.nodupKeys ((List.reverse_perm _).trans hperm)]
    rfl

/-- C2 amended: creating a record under a fresh positive identifier succeeds,
and right afterwards the current mapping and version 1 are the supplied mapping
as it reads back from its stored text, and the history is the single entry
numbered 1; the mapping read back equals the supplied one when every key and
value of it is valid UTF-8. -/
theorem C2_create_then_read (db : DB) (hfk : ForeignKeyOK db) (id : Int) (fields : GoMap)
    (now : Time) (hid : id > 0) (hex : recordExists db id = false) :
    (CreateRecord db ⟨id, fields⟩ now).1 = Result.ok () ∧
    GetRecord (CreateRecord db ⟨id, fields⟩ now).2 id
      = Result.ok ⟨id, jsonRoundTrip fields⟩ ∧
    GetRecordVersion (CreateRecord db ⟨id, fields⟩ now).2 id 1
      = Result.ok ⟨id, jsonRoundTrip fields⟩ ∧
    ListVersions (CreateRecord db ⟨id, fields⟩ now).2 id = Result.ok [⟨1, now⟩] ∧
    (ValidUTF8Map fields → sameMap (jsonRoundTrip fields) fields) := by
  have hv := versionRows_eq_nil_of_not_exists hfk hex
  have hnot : ¬ id ≤ 0 := by omega
  rw [CreateRecord_fresh hid hex hv]
  refine ⟨rfl, ?_, ?_, ?_, jsonRoundTrip_same_of_valid fields⟩
  · simp only [GetRecord, hnot, if_false, selectRecordData_createdDB_self hex,
      jsonRoundTrip]
  · simp only [GetRecordVersion, hnot, if_false, selectVersionData_createdDB_self hv,
      jsonRoundTrip]
    simp
  · simp [ListVersions, hnot, selectVersionsDesc, versionRows_createdDB, hv,
      VersionRow.info]

/-- C7: creating a record under an identifier that already has a
current-state row fails with the already-exists error and returns the database
it started from, so every row of both tables is as before. -/
theorem C7_create_existing_rejected (db : DB) (id : Int) (fields : GoMap) (now : Time)
    (hid : id > 0) (hex : recordExists db id = true) :
    CreateRecord db ⟨id, fields⟩ now = (Result.error Err.ErrRecordAlreadyExists, db) := by
  have hnot : ¬ id ≤ 0 := by omega
  simp only [CreateRecord, hnot, if_false, hex, if_true]

/-- C8: on the database with no record at all, asking for version 1 of
identifier 1 yields the version-does-not-exist error, and no database and no
arguments make `GetRecordVersion` return the record-does-not-exist error. -/
theorem C8_unknown_record_reported_as_unknown_version :
    recordExists emptyDB 1 = false ∧
    GetRecordVersion emptyDB 1 1 = Result.error Err.ErrVersionDoesNotExist ∧
    ∀ (db : DB) (id version : Int),
      GetRecordVersion db id version ≠ Result.error Err.ErrRecordDoesNotExist := by
  refine ⟨rfl, rfl, ?_⟩
  intro db id version
  unfold GetRecordVersion
  split
  · simp
  · split
    · simp
    · split <;> simp

/-- C9 fails as stated: with identifier 0 and version 0 the identifier check
comes first and the error is the invalid-identifier one. -/
theorem C9_invalid_id_checked_first :
    GetRecordVersion emptyDB 0 0 = Result.error Err.ErrRecordIDInvalid ∧
    GetRecordVersion emptyDB 0 0 ≠ Result.error Err.ErrInvalidVersion := by
  decide

/-- C9 amended: for a positive identifier and a version number that is not
positive, `GetRecordVersion` fails with the invalid-version error on every
database; for an identifier that is not positive it fails with the
invalid-identifier error on every database, whatever the version. -/
theorem C9_invalid_version_before_storage (id version : Int) :
    (id > 0 → version ≤ 0 →
      ∀ db : DB, GetRecordVersion db id version = Result.error Err.ErrInvalidVersion) ∧
    (id ≤ 0 →
      ∀ db : DB, GetRecordVersion db id version = Result.error Err.ErrRecordIDInvalid) := by
  constructor
  · intro hid hv db
    have hnot : ¬ id ≤ 0 := by omega
    simp only [GetRecordVersion, hnot, if_false, hv, if_true]
  · intro hid db
    simp only [GetRecordVersion, hid, if_true]

/-- C10: for a positive identifier without a current-state row, `GetRecord`,
`ListVersions` and every `UpdateRecord` fail with the record-does-not-exist
error, and the failing `UpdateRecord` returns the database it started from. -/
theorem C10_missing_record_not_found (db : DB) (hfk : ForeignKeyOK db) (id : Int)
    (hid : id > 0) (hex : recordExists db id = false) :
    GetRecord db id = Result.error Err.ErrRecordDoesNotExist ∧
    ListVersions db id = Result.error Err.ErrRecordDoesNotExist ∧
    ∀ (updates : Updates) (now : Time),
      UpdateRecord db id updates now = (Result.error Err.ErrRecordDoesNotExist, db) := by
  have hnot : ¬ id ≤ 0 := by omega
  have hsel := (recordExists_eq_false_iff db id).1 hex
  have hget : GetRecord db id = Result.error Err.ErrRecordDoesNotExist := by
    simp only [GetRecord, hnot, if_false, hsel]
  refine ⟨hget, ?_, ?_⟩
  · have hv := versionRows_eq_nil_of_not_exists hfk hex
    simp [ListVersions, hnot, selectVersionsDesc, hv, hex]
  · intro updates now
    simp only [UpdateRecord, hnot, if_false, hget]

theorem foldl_max_ge (xs : List Int) (a : Int) :
    a ≤ xs.foldl max a ∧ ∀ x ∈ xs, x ≤ xs.foldl max a := by
  induction xs generalizing a with
  | nil => simp
  | cons y ys ih =>
    simp only [List.foldl_cons, List.mem_cons, forall_eq_or_imp]
    obtain ⟨h1, h2⟩ := ih (max a y)
    exact ⟨le_trans (le_max_left a y) h1, le_trans (le_max_right a y) h1, h2⟩

theorem le_sqlMax {l : List Int} {x : Int} (hx : x ∈ l) :
    ∃ m, sqlMax l = some m ∧ x ≤ m := by
  cases l with
  | nil => simp at hx
  | cons y ys =>
    refine ⟨ys.foldl max y, rfl, ?_⟩
    obtain ⟨h1, h2⟩ := foldl_max_ge ys y
    rcases List.mem_cons.1 hx with h | h
    · rw [h]; exact h1
    · exact h2 x h

theorem version_lt_selectNextVersion {db : DB} {id : Int} {r : VersionRow}
    (hr : r ∈ db.record_versions) (hid : r.record_id = id) :
    r.version < selectNextVersion db id := by
  have hmem : r.version ∈ (versionRows db id).map (fun r => r.version) := by
    simp only [versionRows, List.mem_map, List.mem_filter, decide_eq_true_eq]
    exact ⟨r, ⟨hr, hid⟩, rfl⟩
  obtain ⟨m, hm, hle⟩ := le_sqlMax hmem
  simp only [selectNextVersion, hm, Option.getD_some]
  omega

theorem selectVersionData_next_eq_none (db : DB) (id : Int) :
    selectVersionData db id (selectNextVersion db id) = none := by
  simp only [selectVersionData, Option.map_eq_none', List.find?_eq_none, decide_eq_true_eq,
    not_and]
  intro r hr hid hv
  have := version_lt_selectNextVersion hr hid
  omega

theorem recordExists_updateRecordRow (db : DB) (id : Int) (data : JSONText) (now : Time)
    (id1 : Int) :
    recordExists (updateRecordRow db id data now) id1 = recordExists db id1 := by
  simp only [recordExists, updateRecordRow, List.any_map]
  congr 1
  funext r
  simp only [Function.comp]
  split <;> rfl

theorem UpdateRecord_existing {db : DB} {id : Int} (hid : id > 0) {d : JSONText}
    (hsel : selectRecordData db id = some d) {updates : Updates} {data : GoMap}
    (happ : applyUpdates (jsonUnmarshal d) updates.entries = some data) (now : Time) :
    UpdateRecord db id updates now
      = (Result.ok ⟨id, data⟩, updatedDB db id (jsonMarshal data) now) := by
  have hnot : ¬ id ≤ 0 := by omega
  have hex : recordExists (updateRecordRow db id (jsonMarshal data) now) id = true := by
    rw [recordExists_updateRecordRow]
    exact (recordExists_eq_true_iff db id).2 ⟨d, hsel⟩
  have hv : selectVersionData (updateRecordRow db id (jsonMarshal data) now) id
      (selectNextVersion db id) = none := selectVersionData_next_eq_none db id
  simp only [UpdateRecord, hnot, if_false, GetRecord, hsel, happ,
    insertVersion_eq_some hex hv, updatedDB]
  rfl

theorem UpdateRecord_ok_inv {db db1 : DB} {id : Int} {updates : Updates} {now : Time}
    {rec : Record} (h : UpdateRecord db id updates now = (Result.ok rec, db1)) :
    id > 0 ∧ ∃ d, selectRecordData db id = some d ∧
      applyUpdates (jsonUnmarshal d) updates.entries = some rec.Data ∧
      rec = ⟨id, rec.Data⟩ ∧ db1 = updatedDB db id (jsonMarshal rec.Data) now := by
  by_cases hid : id ≤ 0
  · simp [UpdateRecord, hid] at h
  · have hpos : id > 0 := by omega
    refine ⟨hpos, ?_⟩
    cases hsel : selectRecordData db id with
    | none => simp [UpdateRecord, hid, GetRecord, hsel] at h
    | some d =>
      refine ⟨d, rfl, ?_⟩
      cases happ : applyUpdates (jsonUnmarshal d) updates.entries with
      | none => simp [UpdateRecord, hid, GetRecord, hsel, happ] at h
      | some data =>
        rw [UpdateRecord_existing hpos hsel happ] at h
        simp only [Prod.mk.injEq, Result.ok.injEq] at h
        obtain ⟨h1, h2⟩ := h
        subst h1
        exact ⟨rfl, rfl, h2.symm⟩

theorem goLookup_goDelete_self (m : GoMap) (key : GoString) :
    goLookup (goDelete m key) key = none := by
  cases m <;> simp [goLookup, goDelete]

theorem goLookup_goDelete_ne (m : GoMap) {k key : GoString} (h : k ≠ key) :
    goLookup (goDelete m key) k = goLookup m k := by
  cases m <;> simp [goLookup, goDelete, AList.lookup_erase_ne h]

theorem goLookup_goAssign_self {m m1 : GoMap} {key value : GoString}
    (h : goAssign m key value = some m1) : goLookup m1 key = some value := by
  cases m with
  | none => simp [goAssign] at h
  | some fields =>
    simp only [goAssign, Option.some.injEq] at h
    subst h
    simp [goLookup]

theorem goLookup_goAssign_ne {m m1 : GoMap} {k key value : GoString}
    (h : goAssign m key value = some m1) (hk : k ≠ key) : goLookup m1 k = goLookup m k := by
  cases m with
  | none => simp [goAssign] at h
  | some fields =>
    simp only [goAssign, Option.some.injEq] at h
    subst h
    simp [goLookup, AList.lookup_insert_ne hk]

theorem applyUpdates_unnamed (l : List (Sigma (fun _ : GoString => Option GoString)))
    (data result : GoMap) (h : applyUpdates data l = some result) (k : GoString)
    (hk : List.dlookup k l = none) : goLookup result k = goLookup data k := by
  induction l generalizing data with
  | nil =>
    simp only [applyUpdates, Option.some.injEq] at h
    rw [h]
  | cons e rest ih =>
    obtain ⟨key, val⟩ := e
    have hne : k ≠ key := by
      intro heq
      subst heq
      simp at hk
    have hrest : List.dlookup k rest = none := by
      rw [List.dlookup_cons_ne rest ⟨key, val⟩ hne] at hk
      exact hk
    cases val with
    | none =>
      simp only [applyUpdates] at h
      rw [ih _ h hrest, goLookup_goDelete_ne data hne]
    | some value =>
      simp only [applyUpdates] at h
      cases hassign : goAssign data key value with
      | none => simp [hassign] at h
      | some data1 =>
        simp only [hassign] at h
        rw [ih _ h hrest, goLookup_goAssign_ne hassign hne]

theorem applyUpdates_named (l : List (Sigma (fun _ : GoString => Option GoString)))
    (hnd : l.NodupKeys) (data result : GoMap) (h : applyUpdates data l = some result)
    (k : GoString) (val : Option GoString) (hk : List.dlookup k l = some val) :
    goLookup result k = val := by
  induction l generalizing data with
  | nil => simp at hk
  | cons e rest ih =>
    obtain ⟨key, val1⟩ := e
    rw [List.nodupKeys_cons] at hnd
    obtain ⟨hnotin, hnd1⟩ := hnd
    by_cases hkey : k = key
    · subst hkey
      simp only [List.dlookup_cons_eq, Option.some.injEq] at hk
      subst hk
      have hrest : List.dlookup k rest = none := List.dlookup_eq_none.2 hnotin
      cases val1 with
      | none =>
        simp only [applyUpdates] at h
        rw [applyUpdates_unnamed rest _ result h k hrest, goLookup_goDelete_self]
      | some value =>
        simp only [applyUpdates] at h
        cases hassign : goAssign data k value with
        | none => simp [hassign] at h
        | some data1 =>
          simp only [hassign] at h
          rw [applyUpdates_unnamed rest _ result h k hrest, goLookup_goAssign_self hassign]
    · rw [List.dlookup_cons_ne rest ⟨key, val1⟩ hkey] at hk
      cases val1 with
      | none =>
        simp only [applyUpdates] at h
        exact ih hnd1 _ h hk
      | some value =>
        simp only [applyUpdates] at h
        cases hassign : goAssign data key value with
        | none => simp [hassign] at h
        | some data1 =>
          simp only [hassign] at h
          exact ih hnd1 _ h hk

/-- C4: the mapping returned by a successful `UpdateRecord` lacks every field
the mutations name with a nil value, holds the given string for every field
they name with a string, and agrees with the mapping read before the call on
every field they do not name. -/
theorem C4_update_merge (db db1 : DB) (id : Int) (current : GoMap) (updates : Updates)
    (now : Time) (rec : Record)
    (hget : GetRecord db id = Result.ok ⟨id, current⟩)
    (hupd : UpdateRecord db id updates now = (Result.ok rec, db1)) (k : GoString) :
    (updates.lookup k = some none → goLookup rec.Data k = none) ∧
    (∀ v, updates.lookup k = some (some v) → goLookup rec.Data k = some v) ∧
    (updates.lookup k = none → goLookup rec.Data k = goLookup current k) := by
  obtain ⟨hid, d, hsel, happ, -, -⟩ := UpdateRecord_ok_inv hupd
  have hnot : ¬ id ≤ 0 := by omega
  simp only [GetRecord, hnot, if_false, hsel, Result.ok.injEq, Record.mk.injEq,
    true_and] at hget
  rw [hget] at happ
  refine ⟨?_, ?_, ?_⟩
  · intro h
    exact applyUpdates_named _ updates.nodupKeys _ _ happ k none h
  · intro v h
    exact applyUpdates_named _ updates.nodupKeys _ _ happ k (some v) h
  · intro h
    exact applyUpdates_unnamed _ _ _ happ k h

theorem CreateRecord_effect (db : DB) (record : Record) (now : Time) :
    Effect db (CreateRecord db record now).2 := by
  unfold CreateRecord
  by_cases hid : record.ID ≤ 0
  · simp only [hid, if_true]
    exact Effect.unchanged
  · have hpos : record.ID > 0 := by omega
    simp only [hid, if_false]
    cases hex : recordExists db record.ID with
    | true =>
      simp only [if_true]
      exact Effect.unchanged
    | false =>
      simp only [Bool.false_eq_true, if_false, insertRecord_eq_some hpos hex]
      by_cases hc : recordExists
          ⟨db.records ++ [⟨record.ID, jsonMarshal record.Data, now, now⟩],
            db.record_versions⟩ record.ID = true ∧
          selectVersionData
            ⟨db.records ++ [⟨record.ID, jsonMarshal record.Data, now, now⟩],
              db.record_versions⟩ record.ID 1 = none
      · simp only [insertVersion, hc, and_self, if_true]
        exact Effect.created record.ID (jsonMarshal record.Data) now hpos hex
      · simp only [insertVersion, hc, if_false]
        exact Effect.unchanged

theorem UpdateRecord_effect (db : DB) (id : Int) (updates : Updates) (now : Time) :
    Effect db (UpdateRecord db id updates now).2 := by
  by_cases hid : id ≤ 0
  · simp only [UpdateRecord, hid, if_true]
    exact Effect.unchanged
  · have hpos : id > 0 := by omega
    cases hsel : selectRecordData db id with
    | none =>
      simp only [UpdateRecord, hid, if_false, GetRecord, hsel]
      exact Effect.unchanged
    | some d =>
      cases happ : applyUpdates (jsonUnmarshal d) updates.entries with
      | none =>
        simp only [UpdateRecord, hid, if_false, GetRecord, hsel, happ]
        exact Effect.unchanged
      | some data =>
        rw [UpdateRecord_existing hpos hsel happ]
        exact Effect.updated id (jsonMarshal data) now
          ((recordExists_eq_true_iff db id).2 ⟨d, hsel⟩)

theorem CreateOrUpdateRecord_effect (db : DB) (record : Record) (now : Time) :
    Effect db (CreateOrUpdateRecord db record now).2 := by
  unfold CreateOrUpdateRecord
  by_cases hid : record.ID ≤ 0
  · simp only [hid, if_true]
    exact Effect.unchanged
  · simp only [hid, if_false]
    cases hget : GetRecord db record.ID with
    | panic => exact Effect.unchanged
    | ok r => exact UpdateRecord_effect db record.ID _ now
    | error e =>
      simp only
      split
      · exact Effect.unchanged
      · have h := CreateRecord_effect db record now
        cases hc : CreateRecord db record now with
        | mk res db1 =>
          rw [hc] at h
          cases res <;> exact h

theorem Op.apply_effect (db : DB) (op : Op) : Effect db (op.apply db) := by
  cases op with
  | create record now => exact CreateRecord_effect db record now
  | update id updates now => exact UpdateRecord_effect db id updates now
  | createOrUpdate record now => exact CreateOrUpdateRecord_effect db record now

theorem recordExists_createdDB (db : DB) (id : Int) (data : JSONText) (now : Time)
    (id1 : Int) :
    recordExists (createdDB db id data now) id1
      = (recordExists db id1 || decide (id = id1)) := by
  simp [recordExists, createdDB]

theorem selectRecordData_createdDB_ne (db : DB) {id id1 : Int} (h : id ≠ id1)
    (data : JSONText) (now : Time) :
    selectRecordData (createdDB db id data now) id1 = selectRecordData db id1 := by
  simp only [selectRecordData, createdDB, List.find?_append]
  cases List.find? (fun r => decide (r.id = id1)) db.records <;> simp [h]

theorem recordExists_updatedDB (db : DB) (id : Int) (data : JSONText) (now : Time)
    (id1 : Int) : recordExists (updatedDB db id data now) id1 = recordExists db id1 :=
  recordExists_updateRecordRow db id data now id1

theorem selectRecordData_updatedDB (db : DB) (id : Int) (data : JSONText) (now : Time)
    (id1 : Int) :
    selectRecordData (updatedDB db id data now) id1
      = if id1 = id then (selectRecordData db id1).map (fun _ => data)
        else selectRecordData db id1 := by
  have hcomp : ((fun r : RecordRow => decide (r.id = id1)) ∘
      (fun r : RecordRow =>
        if r.id = id then { r with data := data, updated_at := now } else r))
      = (fun r : RecordRow => decide (r.id = id1)) := by
    funext r
    simp only [Function.comp]
    split <;> rfl
  simp only [selectRecordData, updatedDB, updateRecordRow, List.find?_map, hcomp]
  cases hf : List.find? (fun r : RecordRow => decide (r.id = id1)) db.records with
  | none => simp
  | some r =>
    have hr : r.id = id1 := by simpa using List.find?_some hf
    by_cases hid : id1 = id
    · have h2 : r.id = id := by omega
      simp [hid, h2]
    · have h2 : ¬ r.id = id := by omega
      simp [hid, h2]

theorem selectRecordData_updatedDB_self {db : DB} {id : Int}
    (hex : recordExists db id = true) (data : JSONText) (now : Time) :
    selectRecordData (updatedDB db id data now) id = some data := by
  obtain ⟨d, hd⟩ := (recordExists_eq_true_iff db id).1 hex
  rw [selectRecordData_updatedDB, if_pos rfl, hd]
  rfl

theorem selectRecordData_updatedDB_ne (db : DB) {id id1 : Int} (h : id ≠ id1)
    (data : JSONText) (now : Time) :
    selectRecordData (updatedDB db id data now) id1 = selectRecordData db id1 := by
  rw [selectRecordData_updatedDB, if_neg (fun h1 => h h1.symm)]

theorem versionNumbers_succ (n : Nat) :
    versionNumbers (n + 1) = versionNumbers n ++ [((n + 1 : Nat) : Int)] := by
  simp [versionNumbers, List.range'_concat, Nat.add_comm]

theorem mem_versionNumbers {n : Nat} {x : Int} :
    x ∈ versionNumbers n ↔ 1 ≤ x ∧ x ≤ n := by
  simp only [versionNumbers, List.mem_map, List.mem_range']
  constructor
  · rintro ⟨a, ⟨i, hi, rfl⟩, rfl⟩
    simp only [Int.ofNat_eq_coe]
    omega
  · rintro ⟨h1, h2⟩
    refine ⟨x.toNat, ⟨x.toNat - 1, by omega, by omega⟩, ?_⟩
    simp only [Int.ofNat_eq_coe]
    omega

theorem foldl_max_mem (xs : List Int) (a : Int) : xs.foldl max a ∈ a :: xs := by
  induction xs generalizing a with
  | nil => simp
  | cons y ys ih =>
    simp only [List.foldl_cons]
    have h := ih (max a y)
    rcases List.mem_cons.1 h with h1 | h1
    · rw [h1]
      rcases max_choice a y with h2 | h2 <;> simp [h2]
    · simp [h1]

theorem sqlMax_versionNumbers (n : Nat) :
    sqlMax (versionNumbers (n + 1)) = some ((n + 1 : Nat) : Int) := by
  have hmem : ((n + 1 : Nat) : Int) ∈ versionNumbers (n + 1) := by
    rw [mem_versionNumbers]; omega
  obtain ⟨m, hm, hle⟩ := le_sqlMax hmem
  have hm2 : m ∈ versionNumbers (n + 1) := by
    cases hl : versionNumbers (n + 1) with
    | nil => rw [hl] at hmem; simp at hmem
    | cons y ys =>
      rw [hl] at hm
      simp only [sqlMax, Option.some.injEq] at hm
      rw [← hm]
      exact foldl_max_mem ys y
  rw [mem_versionNumbers] at hm2
  rw [hm]
  congr 1
  omega

theorem selectNextVersion_of_versionNumbers {db : DB} {id : Int} {n : Nat}
    (h : (versionRows db id).map (fun r => r.version) = versionNumbers (n + 1)) :
    selectNextVersion db id = ((n + 2 : Nat) : Int) := by
  simp only [selectNextVersion, h, sqlMax_versionNumbers, Option.getD_some]
  omega

theorem Consistent_emptyDB : Consistent emptyDB := by
  intro id
  constructor
  · intro _
    rfl
  · intro d hd
    simp [selectRecordData, emptyDB] at hd

theorem Effect.preserves_consistent {db db1 : DB} (hc : Consistent db) (he : Effect db db1) :
    Consistent db1 := by
  cases he with
  | unchanged => exact hc
  | created id0 data now hid hex =>
    intro id
    by_cases h : id0 = id
    · subst h
      have hv := (hc id0).1 hex
      constructor
      · intro hf
        simp [recordExists_createdDB] at hf
      · intro d hd
        rw [selectRecordData_createdDB_self hex] at hd
        refine ⟨0, ?_, ?_⟩
        · simp [versionRows_createdDB, hv, versionNumbers]
        · simpa [versionRows_createdDB, hv] using hd
    · rw [recordExists_createdDB, selectRecordData_createdDB_ne db h, versionRows_createdDB,
        if_neg h]
      simpa [h] using hc id
  | updated id0 data now hex =>
    intro id
    by_cases h : id0 = id
    · subst h
      constructor
      · intro hf
        rw [recordExists_updatedDB, hex] at hf
        exact absurd hf (by simp)
      · intro d hd
        rw [selectRecordData_updatedDB_self hex] at hd
        obtain ⟨d0, hd0⟩ := (recordExists_eq_true_iff db id0).1 hex
        obtain ⟨n, hv, -⟩ := (hc id0).2 d0 hd0
        refine ⟨n + 1, ?_, ?_⟩
        · rw [versionRows_updatedDB, if_pos rfl, List.map_append, hv,
            versionNumbers_succ (n + 1), selectNextVersion_of_versionNumbers hv]
          rfl
        · simpa [versionRows_updatedDB] using hd
    · rw [recordExists_updatedDB, selectRecordData_updatedDB_ne db h, versionRows_updatedDB,
        if_neg h]
      simpa using hc id

theorem Reachable.consistent {db : DB} (h : Reachable db) : Consistent db := by
  induction h with
  | empty => exact Consistent_emptyDB
  | step _ op ih => exact (Op.apply_effect _ op).preserves_consistent ih

theorem Consistent.foreignKeyOK {db : DB} (hc : Consistent db) : ForeignKeyOK db := by
  intro r hr
  cases hex : recordExists db r.record_id with
  | true => rfl
  | false =>
    have hv := (hc r.record_id).1 hex
    have hmem : r ∈ versionRows db r.record_id := by
      simp [versionRows, hr]
    rw [hv] at hmem
    simp at hmem

theorem versionNumbers_pairwise_lt (n : Nat) :
    (versionNumbers n).Pairwise (fun a b => a < b) := by
  rw [versionNumbers, List.pairwise_map]
  exact (List.pairwise_lt_range' 1 n).imp (fun h => by simpa using h)

theorem orderedInsert_eq_concat {α : Type} (r : α → α → Prop) [DecidableRel r] (a : α)
    (l : List α) (h : ∀ b ∈ l, ¬ r a b) : l.orderedInsert r a = l ++ [a] := by
  induction l with
  | nil => rfl
  | cons b t ih =>
    have hb : ¬ r a b := h b (List.mem_cons_self b t)
    simp only [List.orderedInsert, hb, if_false, List.cons_append]
    rw [ih (fun c hc => h c (List.mem_cons_of_mem b hc))]

theorem insertionSort_eq_reverse {α : Type} (r : α → α → Prop) [DecidableRel r]
    (l : List α) (h : l.Pairwise (fun a b => ¬ r a b)) : l.insertionSort r = l.reverse := by
  induction l with
  | nil => rfl
  | cons a t ih =>
    rw [List.pairwise_cons] at h
    rw [List.insertionSort, ih h.2, List.reverse_cons]
    exact orderedInsert_eq_concat r a t.reverse (fun b hb => h.1 b (List.mem_reverse.1 hb))

theorem selectVersionsDesc_eq_reverse {db : DB} {id : Int} {n : Nat}
    (hv : (versionRows db id).map (fun r => r.version) = versionNumbers n) :
    selectVersionsDesc db id = ((versionRows db id).map VersionRow.info).reverse := by
  apply insertionSort_eq_reverse
  have hp := versionNumbers_pairwise_lt n
  rw [← hv, List.pairwise_map] at hp
  rw [List.pairwise_map]
  exact hp.imp (fun h => by simpa [VersionRow.info] using h)

theorem map_Version_info (l : List VersionRow) :
    (l.map VersionRow.info).map (fun v => v.Version) = l.map (fun r => r.version) := by
  simp [VersionRow.info, Function.comp_def]

theorem ListVersions_of_versionNumbers {db : DB} {id : Int} (hid : id > 0) {n : Nat}
    (hv : (versionRows db id).map (fun r => r.version) = versionNumbers (n + 1)) :
    ListVersions db id = Result.ok ((versionRows db id).map VersionRow.info).reverse := by
  have hnot : ¬ id ≤ 0 := by omega
  have hlen : (versionRows db id).length = n + 1 := by
    have := congrArg List.length hv
    simpa [versionNumbers] using this
  simp [ListVersions, hnot, selectVersionsDesc_eq_reverse hv, hlen]

theorem Effect.preserves_ids_pos {db db1 : DB} (hp : ∀ r ∈ db.records, r.id > 0) (he : Effect db db1) :
    ∀ r ∈ db1.records, r.id > 0 := by
  cases he with
  | unchanged => exact hp
  | created id0 data now hid hex =>
    intro r hr
    simp only [createdDB, List.mem_append, List.mem_singleton] at hr
    rcases hr with hr | hr
    · exact hp r hr
    · rw [hr]; exact hid
  | updated id0 data now hex =>
    intro r hr
    simp only [updatedDB, updateRecordRow, List.mem_map] at hr
    obtain ⟨r0, hr0, hr1⟩ := hr
    have := hp r0 hr0
    rw [← hr1]
    split <;> exact this

theorem Reachable.ids_pos {db : DB} (h : Reachable db) : ∀ r ∈ db.records, r.id > 0 := by
  induction h with
  | empty => intro r hr; simp [emptyDB] at hr
  | step _ op ih => exact (Op.apply_effect _ op).preserves_ids_pos ih

theorem pos_of_recordExists {db : DB} (hp : ∀ r ∈ db.records, r.id > 0) {id : Int}
    (hex : recordExists db id = true) : id > 0 := by
  simp only [recordExists, List.any_eq_true, decide_eq_true_eq] at hex
  obtain ⟨r, hr, hid⟩ := hex
  rw [← hid]
  exact hp r hr

theorem find?_of_nodup_map {α β : Type} [DecidableEq β] (f : α → β) (l : List α)
    (hnd : (l.map f).Nodup) {a : α} (ha : a ∈ l) :
    l.find? (fun x => decide (f x = f a)) = some a := by
  induction l with
  | nil => simp at ha
  | cons x xs ih =>
    rw [List.map_cons, List.nodup_cons] at hnd
    by_cases hx : f x = f a
    · rcases List.mem_cons.1 ha with h | h
      · simp [List.find?, h]
      · exact absurd (List.mem_map.2 ⟨a, h, hx.symm⟩) hnd.1
    · rcases List.mem_cons.1 ha with h | h
      · exact absurd (congrArg f h).symm hx
      · simp only [List.find?, hx, decide_False]
        exact ih hnd.2 h

theorem versionNumbers_nodup (n : Nat) : (versionNumbers n).Nodup :=
  (versionNumbers_pairwise_lt n).imp (fun h => ne_of_lt h)

theorem selectVersionData_eq_find_versionRows (db : DB) (id version : Int) :
    selectVersionData db id version
      = ((versionRows db id).find? (fun r => decide (r.version = version))).map
          (fun r => r.data) := by
  simp only [selectVersionData, versionRows, List.find?_filter]
  congr 2
  funext r
  simp

theorem selectVersionData_of_mem {db : DB} {id : Int} {n : Nat}
    (hv : (versionRows db id).map (fun r => r.version) = versionNumbers n)
    {r : VersionRow} (hr : r ∈ versionRows db id) :
    selectVersionData db id r.version = some r.data := by
  rw [selectVersionData_eq_find_versionRows,
    find?_of_nodup_map (fun r : VersionRow => r.version) _ (hv ▸ versionNumbers_nodup n) hr]
  rfl

/-- C1: in every database reachable from the empty one through `CreateRecord`,
`UpdateRecord` and `CreateOrUpdateRecord`, an identifier with a current-state
row has a version row whose number is the greatest of that identifier and whose
stored text is that of the current-state row, so that reading that version
gives what `GetRecord` gives. -/
theorem C1_current_equals_latest_version (db : DB) (h : Reachable db) (id : Int)
    (d : JSONText) (hrow : selectRecordData db id = some d) :
    ∃ r ∈ db.record_versions, r.record_id = id ∧
      (∀ r1 ∈ db.record_versions, r1.record_id = id → r1.version ≤ r.version) ∧
      r.data = d ∧
      GetRecordVersion db id r.version = GetRecord db id := by
  obtain ⟨n, hv, hl⟩ := (h.consistent id).2 d hrow
  cases hlast : (versionRows db id).getLast? with
  | none => simp [hlast] at hl
  | some r =>
    simp only [hlast, Option.map_some', Option.some.injEq] at hl
    have hmem : r ∈ versionRows db id := List.mem_of_getLast?_eq_some hlast
    have hmem2 := hmem
    simp only [versionRows, List.mem_filter, decide_eq_true_eq] at hmem2
    have hver : r.version = ((n + 1 : Nat) : Int) := by
      have h1 := congrArg List.getLast? hv
      rw [List.getLast?_map, hlast, versionNumbers_succ, List.getLast?_concat] at h1
      simpa using h1
    have hid : id > 0 :=
      pos_of_recordExists h.ids_pos ((recordExists_eq_true_iff db id).2 ⟨d, hrow⟩)
    refine ⟨r, hmem2.1, hmem2.2, ?_, hl, ?_⟩
    · intro r1 hr1 hid1
      have hm : r1.version ∈ (versionRows db id).map (fun r => r.version) := by
        simp only [versionRows, List.mem_map, List.mem_filter, decide_eq_true_eq]
        exact ⟨r1, ⟨hr1, hid1⟩, rfl⟩
      rw [hv, mem_versionNumbers] at hm
      omega
    · have hnot : ¬ id ≤ 0 := by omega
      have hvpos : ¬ r.version ≤ 0 := by omega
      simp only [GetRecordVersion, GetRecord, hnot, if_false, hvpos,
        selectVersionData_of_mem hv hmem, hrow, hl]

/-- C5: in every reachable database, `ListVersions` on an existing record
returns version numbers that strictly decrease and that, reversed, are exactly
1, 2, ..., n, where n ≥ 1 is the number of version rows of that record. -/
theorem C5_versions_descending_gap_free (db : DB) (h : Reachable db) (id : Int)
    (hex : recordExists db id = true) :
    ∃ vs, ListVersions db id = Result.ok vs ∧
      (vs.map (fun v => v.Version)).Pairwise (fun a b => a > b) ∧
      (vs.map (fun v => v.Version)).reverse = versionNumbers vs.length ∧
      vs.length = (versionRows db id).length ∧ 1 ≤ vs.length := by
  obtain ⟨d, hd⟩ := (recordExists_eq_true_iff db id).1 hex
  obtain ⟨n, hv, -⟩ := (h.consistent id).2 d hd
  have hid : id > 0 := pos_of_recordExists h.ids_pos hex
  have hlen : (versionRows db id).length = n + 1 := by
    have := congrArg List.length hv
    simpa [versionNumbers] using this
  refine ⟨_, ListVersions_of_versionNumbers hid hv, ?_, ?_, ?_, ?_⟩
  · rw [List.map_reverse, map_Version_info, hv, List.pairwise_reverse]
    exact versionNumbers_pairwise_lt (n + 1)
  · rw [List.map_reverse, List.reverse_reverse, map_Version_info, hv]
    simp [hlen]
  · simp
  · simp [hlen]

theorem selectVersionData_updatedDB_next (db : DB) (id : Int) (data : JSONText) (now : Time) :
    selectVersionData (updatedDB db id data now) id (selectNextVersion db id) = some data := by
  have h := selectVersionData_next_eq_none db id
  simp only [selectVersionData, Option.map_eq_none'] at h
  simp only [selectVersionData, updatedDB, List.find?_append, h, Option.none_or]
  simp

/-- C3 amended: when `UpdateRecord` succeeds on a reachable database with the
mapping M, `GetRecord` afterwards returns M as it reads back from its stored
text, which equals M when every key and value of M is valid UTF-8; the history
before the call is non-empty with its greatest number first, the history
afterwards is that history with one new first entry numbered one more; exactly
one version row was appended; and reading the new version returns what
`GetRecord` returns. -/
theorem C3_update_then_read (db db1 : DB) (h : Reachable db) (id : Int) (updates : Updates)
    (now : Time) (rec : Record)
    (hupd : UpdateRecord db id updates now = (Result.ok rec, db1)) :
    rec.ID = id ∧
    GetRecord db1 id = Result.ok ⟨id, jsonRoundTrip rec.Data⟩ ∧
    (ValidUTF8Map rec.Data → sameMap (jsonRoundTrip rec.Data) rec.Data) ∧
    ∃ top rest, ListVersions db id = Result.ok (top :: rest) ∧
      (∀ v ∈ rest, v.Version < top.Version) ∧
      ListVersions db1 id = Result.ok (⟨top.Version + 1, now⟩ :: top :: rest) ∧
      (∃ row, db1.record_versions = db.record_versions ++ [row] ∧ row.record_id = id ∧
        row.version = top.Version + 1) ∧
      GetRecordVersion db1 id (top.Version + 1)
        = Result.ok ⟨id, jsonRoundTrip rec.Data⟩ := by
  obtain ⟨hid, d, hsel, -, hrec, hdb1⟩ := UpdateRecord_ok_inv hupd
  have hnot : ¬ id ≤ 0 := by omega
  have hex := (recordExists_eq_true_iff db id).2 ⟨d, hsel⟩
  obtain ⟨n, hv, -⟩ := (h.consistent id).2 d hsel
  have hnext := selectNextVersion_of_versionNumbers hv
  have hget : GetRecord db1 id = Result.ok ⟨id, jsonRoundTrip rec.Data⟩ := by
    rw [hdb1]
    simp only [GetRecord, hnot, if_false, selectRecordData_updatedDB_self hex,
      jsonRoundTrip]
  have hrid : rec.ID = id := by
    rw [hrec]
  refine ⟨hrid, hget, jsonRoundTrip_same_of_valid rec.Data, ?_⟩
  have hlist := ListVersions_of_versionNumbers hid hv
  have hmapv : (((versionRows db id).map VersionRow.info).reverse).map (fun v => v.Version)
      = ((n + 1 : Nat) : Int) :: (versionNumbers n).reverse := by
    rw [List.map_reverse, map_Version_info, hv, versionNumbers_succ, List.reverse_append]
    rfl
  cases hL : ((versionRows db id).map VersionRow.info).reverse with
  | nil => rw [hL] at hmapv; simp at hmapv
  | cons top rest =>
    rw [hL] at hmapv hlist
    simp only [List.map_cons, List.cons.injEq] at hmapv
    obtain ⟨htop, hrest⟩ := hmapv
    have hv1 : (versionRows db1 id).map (fun r => r.version) = versionNumbers (n + 1 + 1) := by
      rw [hdb1, versionRows_updatedDB, if_pos rfl, List.map_append, hv,
        versionNumbers_succ (n + 1), hnext]
      rfl
    have hlist1 := ListVersions_of_versionNumbers hid hv1
    have hnext1 : selectNextVersion db id = top.Version + 1 := by
      rw [hnext, htop]; push_cast; ring
    refine ⟨top, rest, hlist, ?_, ?_, ?_, ?_⟩
    · intro v hvm
      have hm : v.Version ∈ (versionNumbers n).reverse := by
        rw [← hrest]
        exact List.mem_map.2 ⟨v, hvm, rfl⟩
      rw [List.mem_reverse, mem_versionNumbers] at hm
      omega
    · rw [hlist1, hdb1, versionRows_updatedDB, if_pos rfl, List.map_append,
        List.reverse_append, hL, hnext1]
      rfl
    · refine ⟨⟨nextRowid db, id, selectNextVersion db id, jsonMarshal rec.Data, now⟩,
        ?_, rfl, hnext1⟩
      rw [hdb1]
      rfl
    · have hvpos : ¬ top.Version + 1 ≤ 0 := by omega
      rw [hdb1, ← hnext1]
      rw [← hnext1] at hvpos
      simp only [GetRecordVersion, hnot, if_false, hvpos, selectVersionData_updatedDB_next,
        jsonRoundTrip]

theorem selectVersionData_append_of_some {db : DB} {id version : Int} {d : JSONText}
    (h : selectVersionData db id version = some d) (records : List RecordRow)
    (extra : List VersionRow) :
    selectVersionData ⟨records, db.record_versions ++ extra⟩ id version = some d := by
  simp only [selectVersionData, Option.map_eq_some'] at h ⊢
  obtain ⟨r, hr, hd⟩ := h
  exact ⟨r, by rw [List.find?_append, hr]; rfl, hd⟩

theorem selectVersionData_append_of_none {db : DB} {id version : Int}
    (h : selectVersionData db id version = none) (records : List RecordRow)
    (row : VersionRow) {d : JSONText}
    (h1 : selectVersionData ⟨records, db.record_versions ++ [row]⟩ id version = some d) :
    row.record_id = id ∧ row.version = version ∧ row.data = d := by
  simp only [selectVersionData, Option.map_eq_none'] at h
  simp only [selectVersionData, List.find?_append, h, Option.none_or, Option.map_eq_some'] at h1
  obtain ⟨r, hr, hd⟩ := h1
  have hp := List.find?_some hr
  have hmem := List.mem_of_find?_eq_some hr
  simp only [List.mem_singleton] at hmem
  subst hmem
  simp only [decide_eq_true_eq] at hp
  exact ⟨hp.1, hp.2, hd⟩

theorem Effect.selectVersionData_mono {db db1 : DB} (he : Effect db db1) {id version : Int}
    {d : JSONText} (h : selectVersionData db id version = some d) :
    selectVersionData db1 id version = some d := by
  cases he with
  | unchanged => exact h
  | created id0 data now hid hex => exact selectVersionData_append_of_some h _ _
  | updated id0 data now hex => exact selectVersionData_append_of_some h _ _

theorem Effect.produced_is_current {db db1 : DB} (he : Effect db db1) {id version : Int}
    {d : JSONText} (h : selectVersionData db id version = none)
    (h1 : selectVersionData db1 id version = some d) : selectRecordData db1 id = some d := by
  cases he with
  | unchanged => rw [h] at h1; simp at h1
  | created id0 data now hid hex =>
    obtain ⟨hr, -, hd⟩ := selectVersionData_append_of_none h _ _ h1
    simp only at hr hd
    subst hr hd
    exact selectRecordData_createdDB_self hex _ _
  | updated id0 data now hex =>
    obtain ⟨hr, -, hd⟩ := selectVersionData_append_of_none h _ _ h1
    simp only at hr hd
    subst hr hd
    exact selectRecordData_updatedDB_self hex _ _

theorem GetRecordVersion_eq_ok_iff (db : DB) (id version : Int) (rec : Record) :
    GetRecordVersion db id version = Result.ok rec ↔
      id > 0 ∧ version > 0 ∧
        ∃ d, selectVersionData db id version = some d ∧ rec = ⟨id, jsonUnmarshal d⟩ := by
  unfold GetRecordVersion
  by_cases hid : id ≤ 0
  · simp only [hid, if_true]
    constructor
    · intro h; simp at h
    · rintro ⟨h, -⟩; omega
  · by_cases hv : version ≤ 0
    · simp only [hid, if_false, hv, if_true]
      constructor
      · intro h; simp at h
      · rintro ⟨-, h, -⟩; omega
    · simp only [hid, if_false, hv]
      cases hsel : selectVersionData db id version with
      | none => simp
      | some d =>
        simp only [Result.ok.injEq, Option.some.injEq, exists_eq_left']
        constructor
        · intro h; exact ⟨by omega, by omega, h.symm⟩
        · rintro ⟨-, -, h⟩; exact h.symm

theorem Op.apply_keeps_version (db : DB) (op : Op) {id version : Int} {rec : Record}
    (h : GetRecordVersion db id version = Result.ok rec) :
    GetRecordVersion (op.apply db) id version = Result.ok rec := by
  rw [GetRecordVersion_eq_ok_iff] at h ⊢
  obtain ⟨h1, h2, d, hd, hrec⟩ := h
  exact ⟨h1, h2, d, (Op.apply_effect db op).selectVersionData_mono hd, hrec⟩

theorem runOps_keeps_version (ops : List Op) (db : DB) {id version : Int} {rec : Record}
    (h : GetRecordVersion db id version = Result.ok rec) :
    GetRecordVersion (runOps db ops) id version = Result.ok rec := by
  induction ops generalizing db with
  | nil => exact h
  | cons op rest ih =>
    simp only [runOps, List.foldl_cons]
    exact ih (op.apply db) (Op.apply_keeps_version db op h)

/-- C6: a version that can be read keeps being read with the same record after
any one call, and after any sequence of calls, of `CreateRecord`, `UpdateRecord`
and `CreateOrUpdateRecord`; and when a call produces a version (it could not be
read before the call and can be read after it), the record read is the one
`GetRecord` returns right after that call, and it is what every later read of
that version returns. -/
theorem C6_versions_immutable (db : DB) (id version : Int) (rec : Record) :
    (GetRecordVersion db id version = Result.ok rec →
      (∀ op : Op, GetRecordVersion (op.apply db) id version = Result.ok rec) ∧
      (∀ ops : List Op, GetRecordVersion (runOps db ops) id version = Result.ok rec)) ∧
    (∀ op : Op,
      GetRecordVersion db id version = Result.error Err.ErrVersionDoesNotExist →
      GetRecordVersion (op.apply db) id version = Result.ok rec →
      GetRecord (op.apply db) id = Result.ok rec ∧
      ∀ ops : List Op,
        GetRecordVersion (runOps (op.apply db) ops) id version = Result.ok rec) := by
  constructor
  · intro h
    exact ⟨fun op => Op.apply_keeps_version db op h, fun ops => runOps_keeps_version ops db h⟩
  · intro op hbefore hafter
    refine ⟨?_, fun ops => runOps_keeps_version ops _ hafter⟩
    obtain ⟨hid, hv, d, hd, hrec⟩ := (GetRecordVersion_eq_ok_iff _ _ _ _).1 hafter
    have hnone : selectVersionData db id version = none := by
      cases hsel : selectVersionData db id version with
      | none => rfl
      | some d0 =>
        have hnot : ¬ id ≤ 0 := by omega
        have hvnot : ¬ version ≤ 0 := by omega
        simp [GetRecordVersion, hnot, hvnot, hsel] at hbefore
    have hcur := (Op.apply_effect db op).produced_is_current hnone hd
    have hnot : ¬ id ≤ 0 := by omega
    simp only [GetRecord, hnot, if_false, hcur, hrec]

theorem Reachable_sampleDB1 : Reachable sampleDB1 :=
  Reachable.step Reachable.empty _

theorem Reachable_sampleDB2 : Reachable sampleDB2 :=
  Reachable.step Reachable_sampleDB1 _

theorem ForeignKeyOK_sampleDB1 : ForeignKeyOK sampleDB1 :=
  Reachable_sampleDB1.consistent.foreignKeyOK

/-- Witness of C1 on the sample run: record 1 after one create and one update. -/
theorem C1_current_equals_latest_version_witness :
    Reachable sampleDB2 ∧
    selectRecordData sampleDB2 1 = some (jsonMarshal (some aliciaFields)) ∧
    ∃ r ∈ sampleDB2.record_versions, r.record_id = 1 ∧
      (∀ r1 ∈ sampleDB2.record_versions, r1.record_id = 1 → r1.version ≤ r.version) ∧
      r.data = jsonMarshal (some aliciaFields) ∧
      GetRecordVersion sampleDB2 1 r.version = GetRecord sampleDB2 1 :=
  ⟨Reachable_sampleDB2, rfl,
    C1_current_equals_latest_version sampleDB2 Reachable_sampleDB2 1
      (jsonMarshal (some aliciaFields)) rfl⟩

theorem validUTF8Map_some (fields : FieldMap)
    (h : ∀ e ∈ fields.entries, toValidUTF8 e.1 = e.1 ∧ toValidUTF8 e.2 = e.2) :
    ValidUTF8Map (some fields) := by
  intro fields1 h1
  rw [Option.some.injEq] at h1
  subst h1
  exact h

theorem ValidUTF8Map_aliceFields : ValidUTF8Map (some aliceFields) :=
  validUTF8Map_some aliceFields (by decide)

theorem ValidUTF8Map_aliciaFields : ValidUTF8Map (some aliciaFields) :=
  validUTF8Map_some aliciaFields (by decide)

/-- C2 fails as stated: a record created with the field `k` holding the byte
`FF` is stored, and `GetRecord` and `GetRecordVersion` then return the field
with U+FFFD in its place, not the mapping that was supplied. -/
theorem C2_invalid_utf8_not_read_back :
    recordExists emptyDB 1 = false ∧
    (CreateRecord emptyDB ⟨1, some badFields⟩ 10).1 = Result.ok () ∧
    recordField (Result.ok ⟨1, some badFields⟩) (goString "k") = some [0xFF] ∧
    recordField (GetRecord (CreateRecord emptyDB ⟨1, some badFields⟩ 10).2 1) (goString "k")
      = some [0xEF, 0xBF, 0xBD] ∧
    GetRecord (CreateRecord emptyDB ⟨1, some badFields⟩ 10).2 1
      ≠ Result.ok ⟨1, some badFields⟩ ∧
    GetRecordVersion (CreateRecord emptyDB ⟨1, some badFields⟩ 10).2 1 1
      ≠ Result.ok ⟨1, some badFields⟩ :=
  ⟨rfl, rfl, rfl, rfl,
    fun h => absurd (congrArg (fun r => recordField r (goString "k")) h) (by decide),
    fun h => absurd (congrArg (fun r => recordField r (goString "k")) h) (by decide)⟩

/-- Witness of C2 as amended: creating record 2 next to record 1. -/
theorem C2_create_then_read_witness :
    ForeignKeyOK sampleDB1 ∧ (2 : Int) > 0 ∧ recordExists sampleDB1 2 = false ∧
    ValidUTF8Map (some aliceFields) ∧
    (CreateRecord sampleDB1 ⟨2, some aliceFields⟩ 30).1 = Result.ok () ∧
    GetRecord (CreateRecord sampleDB1 ⟨2, some aliceFields⟩ 30).2 2
      = Result.ok ⟨2, jsonRoundTrip (some aliceFields)⟩ ∧
    GetRecordVersion (CreateRecord sampleDB1 ⟨2, some aliceFields⟩ 30).2 2 1
      = Result.ok ⟨2, jsonRoundTrip (some aliceFields)⟩ ∧
    ListVersions (CreateRecord sampleDB1 ⟨2, some aliceFields⟩ 30).2 2
      = Result.ok [⟨1, 30⟩] ∧
    sameMap (jsonRoundTrip (some aliceFields)) (some aliceFields) :=
  have h := C2_create_then_read sampleDB1 ForeignKeyOK_sampleDB1 2 (some aliceFields) 30
    (by decide) rfl
  ⟨ForeignKeyOK_sampleDB1, by decide, rfl, ValidUTF8Map_aliceFields,
    h.1, h.2.1, h.2.2.1, h.2.2.2.1, h.2.2.2.2 ValidUTF8Map_aliceFields⟩

/-- C3 fails as stated: the update setting the field `j` to the byte `FE`
succeeds and returns the mapping with that byte, while `GetRecord` and
`GetRecordVersion` of the new version 2 return the field with U+FFFD in its
place. -/
theorem C3_invalid_utf8_update_not_read_back :
    Reachable sampleDB1 ∧
    (UpdateRecord sampleDB1 1 badUpdates 20).1
      = Result.ok ⟨1, some (aliceFields.insert (goString "j") [0xFE])⟩ ∧
    recordField (UpdateRecord sampleDB1 1 badUpdates 20).1 (goString "j") = some [0xFE] ∧
    recordField (GetRecord (UpdateRecord sampleDB1 1 badUpdates 20).2 1) (goString "j")
      = some [0xEF, 0xBF, 0xBD] ∧
    GetRecord (UpdateRecord sampleDB1 1 badUpdates 20).2 1
      ≠ (UpdateRecord sampleDB1 1 badUpdates 20).1 ∧
    GetRecordVersion (UpdateRecord sampleDB1 1 badUpdates 20).2 1 2
      ≠ (UpdateRecord sampleDB1 1 badUpdates 20).1 :=
  ⟨Reachable_sampleDB1, rfl, rfl, rfl,
    fun h => absurd (congrArg (fun r => recordField r (goString "j")) h) (by decide),
    fun h => absurd (congrArg (fun r => recordField r (goString "j")) h) (by decide)⟩

/-- Witness of C3 as amended: scenario B, the update of record 1. -/
theorem C3_update_then_read_witness :
    Reachable sampleDB1 ∧
    UpdateRecord sampleDB1 1 aliciaUpdates 20
      = (Result.ok ⟨1, some aliciaFields⟩, sampleDB2) ∧
    ValidUTF8Map (some aliciaFields) ∧
    GetRecord sampleDB2 1 = Result.ok ⟨1, jsonRoundTrip (some aliciaFields)⟩ ∧
    sameMap (jsonRoundTrip (some aliciaFields)) (some aliciaFields) ∧
    ∃ top rest, ListVersions sampleDB1 1 = Result.ok (top :: rest) ∧
      (∀ v ∈ rest, v.Version < top.Version) ∧
      ListVersions sampleDB2 1 = Result.ok (⟨top.Version + 1, 20⟩ :: top :: rest) ∧
      (∃ row, sampleDB2.record_versions = sampleDB1.record_versions ++ [row] ∧
        row.record_id = 1 ∧ row.version = top.Version + 1) ∧
      GetRecordVersion sampleDB2 1 (top.Version + 1)
        = Result.ok ⟨1, jsonRoundTrip (some aliciaFields)⟩ :=
  have h := C3_update_then_read sampleDB1 sampleDB2 Reachable_sampleDB1 1 aliciaUpdates 20
    ⟨1, some aliciaFields⟩ rfl
  ⟨Reachable_sampleDB1, rfl, ValidUTF8Map_aliciaFields, h.2.1,
    h.2.2.1 ValidUTF8Map_aliciaFields, h.2.2.2⟩

/-- Witness of C4: scenario B, looked up at the field `age`. -/
theorem C4_update_merge_witness :
    GetRecord sampleDB1 1 = Result.ok ⟨1, some aliceFields⟩ ∧
    UpdateRecord sampleDB1 1 aliciaUpdates 20
      = (Result.ok ⟨1, some aliciaFields⟩, sampleDB2) ∧
    ((aliciaUpdates.lookup (goString "age") = some none →
        goLookup (some aliciaFields) (goString "age") = none) ∧
     (∀ v, aliciaUpdates.lookup (goString "age") = some (some v) →
        goLookup (some aliciaFields) (goString "age") = some v) ∧
     (aliciaUpdates.lookup (goString "age") = none →
        goLookup (some aliciaFields) (goString "age") = goLookup (some aliceFields) (goString "age"))) :=
  ⟨rfl, rfl,
    C4_update_merge sampleDB1 sampleDB2 1 (some aliceFields) aliciaUpdates 20
      ⟨1, some aliciaFields⟩ rfl rfl (goString "age")⟩

/-- Witness of C5: the history of record 1 after one create and one update. -/
theorem C5_versions_descending_gap_free_witness :
    Reachable sampleDB2 ∧ recordExists sampleDB2 1 = true ∧
    ∃ vs, ListVersions sampleDB2 1 = Result.ok vs ∧
      (vs.map (fun v => v.Version)).Pairwise (fun a b => a > b) ∧
      (vs.map (fun v => v.Version)).reverse = versionNumbers vs.length ∧
      vs.length = (versionRows sampleDB2 1).length ∧ 1 ≤ vs.length :=
  ⟨Reachable_sampleDB2, rfl,
    C5_versions_descending_gap_free sampleDB2 Reachable_sampleDB2 1 rfl⟩

/-- Witness of C6: version 1 of record 1 survives the update of scenario B, and
version 2, produced by that update, is the record current right after it. -/
theorem C6_versions_immutable_witness :
    GetRecordVersion sampleDB1 1 1 = Result.ok ⟨1, jsonRoundTrip (some aliceFields)⟩ ∧
    GetRecordVersion ((Op.update 1 aliciaUpdates 20).apply sampleDB1) 1 1
      = Result.ok ⟨1, jsonRoundTrip (some aliceFields)⟩ ∧
    GetRecordVersion sampleDB1 1 2 = Result.error Err.ErrVersionDoesNotExist ∧
    GetRecordVersion ((Op.update 1 aliciaUpdates 20).apply sampleDB1) 1 2
      = Result.ok ⟨1, jsonRoundTrip (some aliciaFields)⟩ ∧
    GetRecord ((Op.update 1 aliciaUpdates 20).apply sampleDB1) 1
      = Result.ok ⟨1, jsonRoundTrip (some aliciaFields)⟩ :=
  ⟨rfl,
    ((C6_versions_immutable sampleDB1 1 1 ⟨1, jsonRoundTrip (some aliceFields)⟩).1 rfl).1
      (Op.update 1 aliciaUpdates 20),
    rfl, rfl,
    ((C6_versions_immutable sampleDB1 1 2 ⟨1, jsonRoundTrip (some aliciaFields)⟩).2
      (Op.update 1 aliciaUpdates 20) rfl rfl).1⟩

/-- Witness of C7: scenario E, a second create of record 1. -/
theorem C7_create_existing_rejected_witness :
    (1 : Int) > 0 ∧ recordExists sampleDB1 1 = true ∧
    CreateRecord sampleDB1 ⟨1, some aliciaFields⟩ 30
      = (Result.error Err.ErrRecordAlreadyExists, sampleDB1) :=
  ⟨by decide, rfl,
    C7_create_existing_rejected sampleDB1 1 (some aliciaFields) 30 (by decide) rfl⟩

/-- Witness of C9 as amended: version 0 of record 1, and version 5 of the
identifier -1. -/
theorem C9_invalid_version_before_storage_witness :
    ((1 : Int) > 0 ∧ (0 : Int) ≤ 0 ∧
      GetRecordVersion sampleDB1 1 0 = Result.error Err.ErrInvalidVersion) ∧
    ((-1 : Int) ≤ 0 ∧
      GetRecordVersion sampleDB1 (-1) 5 = Result.error Err.ErrRecordIDInvalid) :=
  ⟨⟨by decide, by decide,
      (C9_invalid_version_before_storage 1 0).1 (by decide) (by decide) sampleDB1⟩,
    ⟨by decide, (C9_invalid_version_before_storage (-1) 5).2 (by decide) sampleDB1⟩⟩

/-- Witness of C10: scenario D, the identifier 999 that was never created. -/
theorem C10_missing_record_not_found_witness :
    ForeignKeyOK sampleDB1 ∧ (999 : Int) > 0 ∧ recordExists sampleDB1 999 = false ∧
    (GetRecord sampleDB1 999 = Result.error Err.ErrRecordDoesNotExist ∧
     ListVersions sampleDB1 999 = Result.error Err.ErrRecordDoesNotExist ∧
     ∀ (updates : Updates) (now : Time),
       UpdateRecord sampleDB1 999 updates now
         = (Result.error Err.ErrRecordDoesNotExist, sampleDB1)) :=
  ⟨ForeignKeyOK_sampleDB1, by decide, rfl,
    C10_missing_record_not_found sampleDB1 ForeignKeyOK_sampleDB1 999 (by decide) rfl⟩

/-! ## Updates of a record stored with a nil mapping -/

theorem applyUpdates_nil_of_set (l : List (Sigma (fun _ : GoString => Option GoString)))
    (h : ∃ e ∈ l, ∃ v, e.2 = some v) : applyUpdates none l = none := by
  induction l with
  | nil =>
    obtain ⟨e, he, -⟩ := h
    simp at he
  | cons x rest ih =>
    obtain ⟨key, val⟩ := x
    cases val with
    | some value => simp [applyUpdates, goAssign]
    | none =>
      simp only [applyUpdates, goDelete, Option.map_none']
      apply ih
      obtain ⟨e, he, v, hv⟩ := h
      rcases List.mem_cons.1 he with h1 | h1
      · rw [h1] at hv
        simp at hv
      · exact ⟨e, h1, v, hv⟩

theorem applyUpdates_some (l : List (Sigma (fun _ : GoString => Option GoString)))
    (fields : FieldMap) : ∃ fields1, applyUpdates (some fields) l = some (some fields1) := by
  induction l generalizing fields with
  | nil => exact ⟨fields, rfl⟩
  | cons x rest ih =>
    obtain ⟨key, val⟩ := x
    cases val with
    | none => exact ih (fields.erase key)
    | some value => exact ih (fields.insert key value)

/-- C13: `UpdateRecord` is not safe on every stored record.  When the
current-state row of a record stores a nil mapping (the text `null`) and the mutation map holds a
set-mutation, `UpdateRecord` reaches the assignment into the nil map: the
outcome is a runtime panic, not a result and not an error, and the database is
left as it was. -/
theorem C13_update_of_nil_mapping_panics (db : DB) (id : Int) (updates : Updates)
    (now : Time) (k v : GoString)
    (hget : GetRecord db id = Result.ok ⟨id, none⟩)
    (hset : updates.lookup k = some (some v)) :
    UpdateRecord db id updates now = (Result.panic, db) := by
  have hid : ¬ id ≤ 0 := by
    intro h
    simp [GetRecord, h] at hget
  have hmem : (⟨k, some v⟩ : Sigma (fun _ : GoString => Option GoString)) ∈ updates.entries :=
    AList.mem_lookup_iff.1 hset
  have happ : applyUpdates none updates.entries = none :=
    applyUpdates_nil_of_set _ ⟨_, hmem, v, rfl⟩
  simp only [UpdateRecord, hid, if_false, hget, happ]

/-- Witness of C13: `CreateRecord` with a nil `Data` succeeds, `GetRecord` reads
the nil mapping back, and the update setting `age` then panics. -/
theorem C13_update_of_nil_mapping_panics_witness :
    (CreateRecord emptyDB ⟨1, none⟩ 10).1 = Result.ok () ∧
    GetRecord nilRecordDB 1 = Result.ok ⟨1, none⟩ ∧
    ageUpdates.lookup (goString "age") = some (some (goString "30")) ∧
    UpdateRecord nilRecordDB 1 ageUpdates 20 = (Result.panic, nilRecordDB) :=
  ⟨rfl, rfl, rfl,
    C13_update_of_nil_mapping_panics nilRecordDB 1 ageUpdates 20 (goString "age") (goString "30") rfl rfl⟩

/-! ## The upsert -/

theorem lookup_foldr_insert_some (l : List (Sigma (fun _ : GoString => GoString))) (k : GoString) :
    (l.foldr (fun (e : Sigma (fun _ : GoString => GoString)) (acc : Updates) =>
        acc.insert e.1 (some e.2)) (∅ : Updates)).lookup k
      = (List.dlookup k l).map some := by
  induction l with
  | nil => simp
  | cons e rest ih =>
    obtain ⟨key, value⟩ := e
    by_cases h : k = key
    · subst h
      simp
    · rw [List.foldr_cons, AList.lookup_insert_ne h, ih, List.dlookup_cons_ne rest _ h]

theorem setMutations_lookup (data : GoMap) (k : GoString) :
    (setMutations data).lookup k = (goLookup data k).map some := by
  cases data with
  | none => simp [setMutations, goLookup]
  | some fields =>
    simp only [setMutations, goLookup, Option.some_bind]
    exact lookup_foldr_insert_some fields.entries k

theorem CreateOrUpdateRecord_existing {db : DB} {id : Int} {current : Record}
    (hget : GetRecord db id = Result.ok current) (data : GoMap) (now : Time) :
    CreateOrUpdateRecord db ⟨id, data⟩ now = UpdateRecord db id (setMutations data) now := by
  have hid : ¬ id ≤ 0 := by
    intro h
    simp [GetRecord, h] at hget
  simp only [CreateOrUpdateRecord, hid, if_false, hget]

theorem CreateOrUpdateRecord_fresh {db : DB} {id : Int} (hid : id > 0)
    (hex : recordExists db id = false) (hv : versionRows db id = [])
    (data : GoMap) (now : Time) :
    CreateOrUpdateRecord db ⟨id, data⟩ now
      = (Result.ok ⟨id, data⟩, createdDB db id (jsonMarshal data) now) := by
  have hnot : ¬ id ≤ 0 := by omega
  have hsel := (recordExists_eq_false_iff db id).1 hex
  have hget : GetRecord db id = Result.error Err.ErrRecordDoesNotExist := by
    simp only [GetRecord, hnot, if_false, hsel]
  simp only [CreateOrUpdateRecord, hnot, if_false, hget, ne_eq, not_true_eq_false,
    CreateRecord_fresh hid hex hv]

theorem reads_of_createdDB {db : DB} {id : Int} (hid : id > 0)
    (hex : recordExists db id = false) (hv : versionRows db id = [])
    (data : GoMap) (now : Time) :
    GetRecord (createdDB db id (jsonMarshal data) now) id
      = Result.ok ⟨id, jsonRoundTrip data⟩ ∧
    GetRecordVersion (createdDB db id (jsonMarshal data) now) id 1
      = Result.ok ⟨id, jsonRoundTrip data⟩ ∧
    ListVersions (createdDB db id (jsonMarshal data) now) id = Result.ok [⟨1, now⟩] := by
  have hnot : ¬ id ≤ 0 := by omega
  refine ⟨?_, ?_, ?_⟩
  · simp only [GetRecord, hnot, if_false, selectRecordData_createdDB_self hex,
      jsonRoundTrip]
  · simp only [GetRecordVersion, hnot, if_false, selectVersionData_createdDB_self hv,
      jsonRoundTrip]
    simp
  · simp [ListVersions, hnot, selectVersionsDesc, versionRows_createdDB, hv,
      VersionRow.info]

theorem GetRecord_ok_inv {db : DB} {id : Int} {rec : Record}
    (h : GetRecord db id = Result.ok rec) :
    id > 0 ∧ ∃ d, selectRecordData db id = some d ∧ rec = ⟨id, jsonUnmarshal d⟩ := by
  by_cases hid : id ≤ 0
  · simp [GetRecord, hid] at h
  · refine ⟨by omega, ?_⟩
    cases hsel : selectRecordData db id with
    | none => simp [GetRecord, hid, hsel] at h
    | some d =>
      simp only [GetRecord, hid, if_false, hsel, Result.ok.injEq] at h
      exact ⟨d, rfl, h.symm⟩

/-- C11 amended: `CreateOrUpdateRecord` on a positive identifier.  Without a
current-state row it creates the record as version 1 and returns the supplied
record; what is stored reads back as the supplied mapping with invalid UTF-8
replaced, which equals the supplied mapping when that is valid UTF-8.  With a
current-state row whose mapping is not nil it is `UpdateRecord` with the
mutations `setMutations`, which hold a set-mutation for exactly the keys of the
supplied mapping; it returns a record, whose mapping has the supplied value for
every supplied key, the current value for every other key, and every key of
the current mapping. -/
theorem C11_upsert (db : DB) (hfk : ForeignKeyOK db) (id : Int) (data : GoMap) (now : Time)
    (hid : id > 0) :
    (recordExists db id = false →
      (CreateOrUpdateRecord db ⟨id, data⟩ now).1 = Result.ok ⟨id, data⟩ ∧
      GetRecord (CreateOrUpdateRecord db ⟨id, data⟩ now).2 id
        = Result.ok ⟨id, jsonRoundTrip data⟩ ∧
      GetRecordVersion (CreateOrUpdateRecord db ⟨id, data⟩ now).2 id 1
        = Result.ok ⟨id, jsonRoundTrip data⟩ ∧
      ListVersions (CreateOrUpdateRecord db ⟨id, data⟩ now).2 id = Result.ok [⟨1, now⟩] ∧
      (ValidUTF8Map data → sameMap (jsonRoundTrip data) data)) ∧
    (∀ current : FieldMap, GetRecord db id = Result.ok ⟨id, some current⟩ →
      CreateOrUpdateRecord db ⟨id, data⟩ now
        = UpdateRecord db id (setMutations data) now ∧
      (∀ k, (setMutations data).lookup k = (goLookup data k).map some) ∧
      ∃ rec db1, CreateOrUpdateRecord db ⟨id, data⟩ now = (Result.ok rec, db1) ∧
        ∀ k, (∀ v, goLookup data k = some v → goLookup rec.Data k = some v) ∧
          (goLookup data k = none → goLookup rec.Data k = current.lookup k) ∧
          ((current.lookup k).isSome → (goLookup rec.Data k).isSome)) := by
  constructor
  · intro hex
    have hv := versionRows_eq_nil_of_not_exists hfk hex
    rw [CreateOrUpdateRecord_fresh hid hex hv]
    obtain ⟨h1, h2, h3⟩ := reads_of_createdDB hid hex hv data now
    exact ⟨rfl, h1, h2, h3, jsonRoundTrip_same_of_valid data⟩
  · intro current hget
    have heq := CreateOrUpdateRecord_existing hget data now
    obtain ⟨-, d, hsel, hcur⟩ := GetRecord_ok_inv hget
    simp only [Record.mk.injEq, true_and] at hcur
    obtain ⟨fields1, happ⟩ := applyUpdates_some (setMutations data).entries current
    rw [hcur] at happ
    have hok := heq.trans (UpdateRecord_existing hid hsel happ now)
    refine ⟨heq, setMutations_lookup data, _, _, hok, ?_⟩
    intro k
    rw [← hcur] at happ
    have hset : ∀ v, goLookup data k = some v → goLookup (some fields1) k = some v := by
      intro v hv
      apply applyUpdates_named _ (setMutations data).nodupKeys _ _ happ k (some v)
      have := setMutations_lookup data k
      rw [hv] at this
      exact this
    have hkeep : goLookup data k = none → goLookup (some fields1) k = current.lookup k := by
      intro hn
      have h1 : goLookup (some fields1) k = goLookup (some current) k := by
        apply applyUpdates_unnamed _ _ _ happ k
        have := setMutations_lookup data k
        rw [hn] at this
        exact this
      exact h1
    refine ⟨hset, hkeep, ?_⟩
    intro hsome
    cases hd : goLookup data k with
    | none => rw [hkeep hd]; exact hsome
    | some v => rw [hset v hd]; rfl

/-- C11 fails as stated.  Without a current-state row, the upsert of the field
`k` holding the byte `FF` returns the supplied record but stores the field with
U+FFFD in its place, so the record is not created with exactly the supplied
mapping.  With a current-state row that stores a nil mapping, the upsert of a
mapping with a field yields no resulting mapping: the call panics. -/
theorem C11_upsert_not_exact :
    recordExists emptyDB 1 = false ∧
    (CreateOrUpdateRecord emptyDB ⟨1, some badFields⟩ 10).1
      = Result.ok ⟨1, some badFields⟩ ∧
    recordField (Result.ok ⟨1, some badFields⟩) (goString "k") = some [0xFF] ∧
    recordField (GetRecord (CreateOrUpdateRecord emptyDB ⟨1, some badFields⟩ 10).2 1)
      (goString "k") = some [0xEF, 0xBF, 0xBD] ∧
    GetRecord (CreateOrUpdateRecord emptyDB ⟨1, some badFields⟩ 10).2 1
      ≠ Result.ok ⟨1, some badFields⟩ ∧
    GetRecord nilRecordDB 1 = Result.ok ⟨1, none⟩ ∧
    CreateOrUpdateRecord nilRecordDB ⟨1, some aliceFields⟩ 20
      = (Result.panic, nilRecordDB) :=
  ⟨rfl, rfl, rfl, rfl,
    fun h => absurd (congrArg (fun r => recordField r (goString "k")) h) (by decide),
    rfl, rfl⟩

/-- Witness of C11 as amended: the upsert of the new record 2, and the upsert
of the existing record 1 of the sample run. -/
theorem C11_upsert_witness :
    ForeignKeyOK sampleDB1 ∧ (2 : Int) > 0 ∧ recordExists sampleDB1 2 = false ∧
    ValidUTF8Map (some aliceFields) ∧
    (CreateOrUpdateRecord sampleDB1 ⟨2, some aliceFields⟩ 30).1
      = Result.ok ⟨2, some aliceFields⟩ ∧
    GetRecord (CreateOrUpdateRecord sampleDB1 ⟨2, some aliceFields⟩ 30).2 2
      = Result.ok ⟨2, jsonRoundTrip (some aliceFields)⟩ ∧
    sameMap (jsonRoundTrip (some aliceFields)) (some aliceFields) ∧
    (1 : Int) > 0 ∧ GetRecord sampleDB1 1 = Result.ok ⟨1, some aliceFields⟩ ∧
    CreateOrUpdateRecord sampleDB1 ⟨1, some aliciaFields⟩ 20
      = UpdateRecord sampleDB1 1 (setMutations (some aliciaFields)) 20 ∧
    ∃ rec db1, CreateOrUpdateRecord sampleDB1 ⟨1, some aliciaFields⟩ 20
        = (Result.ok rec, db1) ∧
      ∀ k, (∀ v, goLookup (some aliciaFields) k = some v → goLookup rec.Data k = some v) ∧
        (goLookup (some aliciaFields) k = none → goLookup rec.Data k = aliceFields.lookup k) ∧
        ((aliceFields.lookup k).isSome → (goLookup rec.Data k).isSome) :=
  have h2 := (C11_upsert sampleDB1 ForeignKeyOK_sampleDB1 2 (some aliceFields) 30
    (by decide)).1 rfl
  have h1 := (C11_upsert sampleDB1 ForeignKeyOK_sampleDB1 1 (some aliciaFields) 20
    (by decide)).2 aliceFields rfl
  ⟨ForeignKeyOK_sampleDB1, by decide, rfl, ValidUTF8Map_aliceFields,
    h2.1, h2.2.1, h2.2.2.2.2 ValidUTF8Map_aliceFields,
    by decide, rfl, h1.1, h1.2.2⟩

/-! ## Two updates of one record -/

theorem UpdateRecord_eq_read_then_tx (db : DB) (id : Int) (updates : Updates) (now : Time) :
    UpdateRecord db id updates now
      = UpdateRecord_finish db id now (UpdateRecord_read db id updates) := by
  unfold UpdateRecord UpdateRecord_read
  by_cases hid : id ≤ 0
  · simp only [hid, if_true, UpdateRecord_finish]
  · simp only [hid, if_false]
    cases GetRecord db id with
    | error e => rfl
    | panic => rfl
    | ok record =>
      simp only
      cases applyUpdates record.Data updates.entries with
      | none => rfl
      | some data => rfl

/-- C12: the read of the current mapping is not inside the transaction of
`UpdateRecord`, and a mutation can be lost.  Every call is its first part
followed by its transaction; on the sample record 1, two calls
that both read the current mapping before either begins its transaction both
return success and both commit a version (3, 2, 1), yet the field `age` set by
the first call is absent from the final current mapping, while it is present
after the same two calls run one after the other in either order. -/
theorem C12_interleaved_updates_lose_a_mutation :
    (∀ (db : DB) (id : Int) (updates : Updates) (now : Time),
      UpdateRecord db id updates now
        = UpdateRecord_finish db id now (UpdateRecord_read db id updates)) ∧
    (interleavedUpdates sampleDB1 1 ageUpdates cityUpdates 20 30).1
      = (Result.ok ⟨1, some (aliceFields.insert (goString "age") (goString "30"))⟩,
         Result.ok ⟨1, some (aliceFields.insert (goString "city") (goString "paris"))⟩) ∧
    ListVersions (interleavedUpdates sampleDB1 1 ageUpdates cityUpdates 20 30).2 1
      = Result.ok [⟨3, 30⟩, ⟨2, 20⟩, ⟨1, 10⟩] ∧
    currentField (interleavedUpdates sampleDB1 1 ageUpdates cityUpdates 20 30).2 1 (goString "age")
      = none ∧
    currentField (interleavedUpdates sampleDB1 1 ageUpdates cityUpdates 20 30).2 1 (goString "city")
      = some (goString "paris") ∧
    currentField (serialUpdates sampleDB1 1 ageUpdates cityUpdates 20 30).2 1 (goString "age")
      = some (goString "30") ∧
    currentField (serialUpdates sampleDB1 1 ageUpdates cityUpdates 20 30).2 1 (goString "city")
      = some (goString "paris") ∧
    currentField (serialUpdates sampleDB1 1 cityUpdates ageUpdates 20 30).2 1 (goString "age")
      = some (goString "30") ∧
    currentField (serialUpdates sampleDB1 1 cityUpdates ageUpdates 20 30).2 1 (goString "city")
      = some (goString "paris") :=
  ⟨UpdateRecord_eq_read_then_tx, rfl, rfl, rfl, rfl, rfl, rfl, rfl, rfl⟩

end TimeTravel
